import Mathlib

/-!
Verification of the IVL attendance-import engine (`app.py`) against its
natural-language specification.

The development shallowly embeds the pieces of `app.py` that the claims
touch: the status normalizer (`cell_true`), the header classifier
(forward fill of the top band, the fixed-column map, the date→status map),
the reconciliation loop (`process_upload`), and the calendar-expanded
export builder.  Python strings are Lean `String`s, pandas NaN/missing
cells are a dedicated `Cell.none` constructor, machine integers are `Nat`
/ `Int`, and the SQLAlchemy session is explicit state passing with a
commit/rollback discipline.
-/

namespace IVL

/-! ### Python string primitives

`pyStrip` models `str.strip()` (drop leading and trailing whitespace) and
`pyLower` models `str.lower()` on the character repertoire this program
uses (ASCII plus the accented letters appearing in the French headers). -/

def stripLaux : List Char → List Char
  | [] => []
  | c :: cs => if c.isWhitespace then stripLaux cs else c :: cs

def stripRaux : List Char → List Char
  | [] => []
  | c :: cs =>
    match stripRaux cs with
    | [] => if c.isWhitespace then [] else [c]
    | r => c :: r

def pyStrip (s : String) : String := ⟨stripRaux (stripLaux s.data)⟩

def lowerChar (c : Char) : Char :=
  if c = 'É' then 'é' else if c = 'È' then 'è' else if c = 'Ê' then 'ê'
  else if c = 'À' then 'à' else if c = 'Ô' then 'ô' else if c = 'Ù' then 'ù'
  else if c = 'Ï' then 'ï' else if c = 'Ç' then 'ç' else c.toLower

def pyLower (s : String) : String := ⟨s.data.map lowerChar⟩

/-- `charsStartWith pat l` : `l` starts with `pat`. -/
def charsStartWith : List Char → List Char → Bool
  | [], _ => true
  | _ :: _, [] => false
  | a :: as, b :: bs => a = b && charsStartWith as bs

/-- `charsHave pat l` : `pat` occurs as a contiguous run inside `l`
(models Python `pat in l`). -/
def charsHave (pat : List Char) : List Char → Bool
  | [] => charsStartWith pat []
  | c :: cs => charsStartWith pat (c :: cs) || charsHave pat cs

/-- `containsSub hay pat` models Python `pat in hay`. -/
def containsSub (hay pat : String) : Bool := charsHave pat.data hay.data

def startsWithStr (s pre : String) : Bool := charsStartWith pre.data s.data

/-- Models Python `str.isdigit()` (restricted to ASCII digits, the only
digits the program's inputs use). -/
def isDigits (s : String) : Bool := !s.data.isEmpty && s.data.all Char.isDigit

/-- Value of a digit string, models `int(s)` on an `isdigit` string. -/
def digitsVal (s : String) : Nat := s.data.foldl (fun n c => n * 10 + (c.toNat - 48)) 0

/-! ### Cells

A parsed spreadsheet cell (`pd.read_excel` value) is missing (NaN),
numeric, or text.  Numeric cells are modelled over `Int`; no claim
depends on fractional values. -/

inductive Cell where
  | none : Cell
  | num : Int → Cell
  | str : String → Cell
deriving DecidableEq, Repr

/-- Models `str(val)` for the non-missing cells the program stringifies. -/
def cellToStr : Cell → String
  | Cell.none => "nan"
  | Cell.num v => toString v
  | Cell.str s => s

/-! ### Status Normalizer — `cell_true` (app.py lines 596–604) -/

def tokensTrue : List String := ["x", "1", "yes", "y", "présent", "present", "p"]

/-- Embedding of `cell_true` from `process_upload`:
NaN → false; numeric → `val != 0`; text → strip, lower, empty → false,
else membership in the affirmative token tuple or a nonzero digit string. -/
def cell_true : Cell → Bool
  | Cell.none => false
  | Cell.num v => v != 0
  | Cell.str s =>
    let t := pyLower (pyStrip s)
    if t = "" then false
    else tokensTrue.contains t || (isDigits t && digitsVal t != 0)

/-- The Status Normalizer exactly as the spec words it ("numeric → true iff
strictly greater than zero"); used only to compare against `cell_true`. -/
def cell_true_specWords : Cell → Bool
  | Cell.none => false
  | Cell.num v => 0 < v
  | Cell.str s =>
    let t := pyLower (pyStrip s)
    tokensTrue.contains t || (isDigits t && 0 < digitsVal t)

/-! ### Calendar dates

`Date` models Python `datetime.date`; comparison on dates is
lexicographic on (year, month, day), and `nextDay` models
`current_date + timedelta(days=1)`. -/

structure Date where
  year : Nat
  month : Nat
  day : Nat
deriving DecidableEq, Repr

def leapB (y : Nat) : Bool := y % 4 == 0 && (y % 100 != 0 || y % 400 == 0)

/-- Length of a month (`m` between 1 and 12). -/
def dim (y m : Nat) : Nat :=
  if m = 2 then (if leapB y then 29 else 28)
  else if m = 4 || m = 6 || m = 9 || m = 11 then 30
  else 31

/-- Cumulative days before month `m` in a common year. -/
def dbmTable : Nat → Nat
  | 1 => 0 | 2 => 31 | 3 => 59 | 4 => 90 | 5 => 120 | 6 => 151
  | 7 => 181 | 8 => 212 | 9 => 243 | 10 => 273 | 11 => 304 | 12 => 334
  | _ => 0

def dbm (y m : Nat) : Nat := dbmTable m + (if leapB y && decide (3 ≤ m) then 1 else 0)

def validDate (d : Date) : Prop :=
  1 ≤ d.year ∧ 1 ≤ d.month ∧ d.month ≤ 12 ∧ 1 ≤ d.day ∧ d.day ≤ dim d.year d.month

instance : DecidablePred validDate := fun d => by unfold validDate; infer_instance

def dateLe (a b : Date) : Prop :=
  a.year < b.year ∨ (a.year = b.year ∧ (a.month < b.month ∨
    (a.month = b.month ∧ a.day ≤ b.day)))

def dateLt (a b : Date) : Prop :=
  a.year < b.year ∨ (a.year = b.year ∧ (a.month < b.month ∨
    (a.month = b.month ∧ a.day < b.day)))

instance : DecidableRel dateLe := fun a b => by unfold dateLe; infer_instance

instance : DecidableRel dateLt := fun a b => by unfold dateLt; infer_instance

def nextDay (d : Date) : Date :=
  if d.day < dim d.year d.month then ⟨d.year, d.month, d.day + 1⟩
  else if d.month < 12 then ⟨d.year, d.month + 1, 1⟩
  else ⟨d.year + 1, 1, 1⟩

/-- Days before year `y` (proleptic Gregorian); bookkeeping device used
only to bound the `while current_date <= end_date` loop. -/
def dby (y : Nat) : Nat := 365 * (y - 1) + (y - 1) / 4 + (y - 1) / 400 - (y - 1) / 100

def dateSerial (d : Date) : Nat := dby d.year + dbm d.year d.month + d.day

/-- The date list built by the export's `while current_date <= end_date`
loop (app.py lines 108–114); the fuel is provably sufficient for valid
dates, and the guard mirrors the loop condition. -/
def daysRangeAux : Nat → Date → Date → List Date
  | 0, _, _ => []
  | n + 1, d, e => if dateLe d e then d :: daysRangeAux n (nextDay d) e else []

def daysRange (s e : Date) : List Date :=
  daysRangeAux (dateSerial e + 1 - dateSerial s) s e

/-! ### Date parsing — `_parse_date_flexible` (app.py lines 411–438) -/

/-- Split a character list on a separator character (`str.split(sep)`
for a one-character separator, which is all the formats use). -/
def splitChars (sep : Char) : List Char → List (List Char)
  | [] => [[]]
  | c :: cs =>
    let r := splitChars sep cs
    if c = sep then [] :: r
    else
      match r with
      | [] => [[c]]
      | g :: gs => (c :: g) :: gs

def splitStr (s : String) (sep : Char) : List String :=
  (splitChars sep s.data).map (fun l => ⟨l⟩)

def parseNat2 (s : String) (lo hi : Nat) : Option Nat :=
  if isDigits s && (s.length = 1 || s.length = 2) then
    let v := digitsVal s
    if lo ≤ v && v ≤ hi then some v else none
  else none

def parseYear4 (s : String) : Option Nat :=
  if isDigits s && s.length = 4 && 1 ≤ digitsVal s then some (digitsVal s) else none

/-- One `datetime.strptime` attempt: split on `sep`, read the three
fields in the order given by `order` (`true` = day-first), validate
against the calendar (as the `datetime` constructor does). -/
def tryFmt (sep : Char) (dayFirst : Bool) (s : String) : Option Date :=
  match splitStr s sep with
  | [f1, f2, f3] =>
    let dstr := if dayFirst then f1 else f2
    let mstr := if dayFirst then f2 else f1
    match parseNat2 dstr 1 31, parseNat2 mstr 1 12, parseYear4 f3 with
    | some d, some m, some y => if d ≤ dim y m then some ⟨y, m, d⟩ else none
    | _, _, _ => none
  | _ => none

/-- `strptime(s, '%Y-%m-%d')`. -/
def parseISO (s : String) : Option Date :=
  match splitStr s '-' with
  | [f1, f2, f3] =>
    match parseYear4 f1, parseNat2 f2 1 12, parseNat2 f3 1 31 with
    | some y, some m, some d => if d ≤ dim y m then some ⟨y, m, d⟩ else none
    | _, _, _ => none
  | _ => none

/-- Embedding of `_parse_date_flexible`: strip, then try the five
`strptime` formats in order.  The final `pd.to_datetime(..., errors='coerce')`
fallback accepts a broader natural-language family of inputs; it is
modelled as never matching — no theorem below depends on an input that
only that fallback would accept. -/
def parseDateFlexible (s0 : String) : Option Date :=
  let s := pyStrip s0
  match tryFmt '/' true s with
  | some d => some d
  | none =>
    match tryFmt '/' false s with
    | some d => some d
    | none =>
      match parseISO s with
      | some d => some d
      | none =>
        match tryFmt '-' true s with
        | some d => some d
        | none => tryFmt '-' false s

def pad2 (n : Nat) : String := if n < 10 then "0" ++ toString n else toString n

def pad4 (n : Nat) : String :=
  if n < 10 then "000" ++ toString n else if n < 100 then "00" ++ toString n
  else if n < 1000 then "0" ++ toString n else toString n

/-- `date.strftime('%Y-%m-%d')`. -/
def dateToStr (d : Date) : String := pad4 d.year ++ "-" ++ pad2 d.month ++ "-" ++ pad2 d.day

/-! ### Association lists modelling Python dicts

`aInsert` has Python dict-update semantics: an existing key keeps its
position and gets the new value, a fresh key is appended. -/

def aInsert {κ α : Type} [DecidableEq κ] (k : κ) (v : α) : List (κ × α) → List (κ × α)
  | [] => [(k, v)]
  | (k0, v0) :: rest => if k0 = k then (k, v) :: rest else (k0, v0) :: aInsert k v rest

def aLookup {κ α : Type} [DecidableEq κ] (k : κ) : List (κ × α) → Option α
  | [] => none
  | (k0, v0) :: rest => if k0 = k then some v0 else aLookup k rest

/-! ### Header Classifier (app.py lines 459–524)

A raw two-level header is a list of `(top, bottom)` label pairs,
`none` standing for a missing (None) label. -/

def RawCols := List (Option String × Option String)

def isBlankTop (s : String) : Bool :=
  s = "" || startsWithStr (pyLower s) "unnamed" || pyLower s = "nan"

/-- The normalisation + forward-fill loop over the two header levels
(app.py lines 460–472): strip both levels, replace a blank/placeholder
top label by the last non-blank top label to its left. -/
def ffillAux : Option String → List (Option String × Option String) → List (String × String)
  | _, [] => []
  | last, (a, b) :: rest =>
    let aS := pyStrip (a.getD "")
    let bS := pyStrip (b.getD "")
    if isBlankTop aS then (last.getD "", bS) :: ffillAux last rest
    else (aS, bS) :: ffillAux (some aS) rest

def ffillPairs (cols : List (Option String × Option String)) : List (String × String) :=
  ffillAux none cols

/-- `_normalize` (app.py lines 396–400): drop every character outside
`[A-Za-z0-9éèêàôùïçÉÀÈ]`, strip, lower. -/
def normalizeHdr (s : String) : String :=
  pyLower (pyStrip ⟨s.data.filter (fun c =>
    c.isAlpha || c.isDigit || (['é','è','ê','à','ô','ù','ï','ç','É','À','È'] : List Char).contains c)⟩)

/-- `canonical_fixed` (app.py lines 479–491), in source order. -/
def canonicalFixed : List (String × List String) :=
  [("matricule", ["matricule", "id"]),
   ("nom", ["nom", "name"]),
   ("prenom", ["prenom", "prénom", "prenom"]),
   ("poste", ["poste", "position"]),
   ("site", ["site"]),
   ("affaire", ["affaire"]),
   ("classe", ["classe", "class", "niveau"]),
   ("affectation", ["affectation", "affect", "assignment"]),
   ("ville", ["ville", "city"]),
   ("taux_logement", ["tauxlogement", "taux_logement", "taux_lgt", "taux logement", "tauxlgt"]),
   ("taux_repas", ["tauxrepas", "taux_repas", "taux repas", "tauxrep"])]

/-- Inner loop of the fixed-column scan: first canonical field whose
variant list contains either normalised level. -/
def findCanon (top bot : String) : Option String :=
  (canonicalFixed.find? (fun p =>
    p.2.contains (normalizeHdr top) || p.2.contains (normalizeHdr bot))).map (·.1)

/-- `fixed_map` construction (app.py lines 494–502); columns are
referenced by their position in file order. -/
def buildFMAux (acc : List (String × Nat)) (i : Nat) : List (String × String) → List (String × Nat)
  | [] => acc
  | (t, b) :: rest =>
    match findCanon t b with
    | some c => buildFMAux (aInsert c i acc) (i + 1) rest
    | none => buildFMAux acc (i + 1) rest

def buildFixedMap (cols : List (String × String)) : List (String × Nat) := buildFMAux [] 0 cols

/-- One column of the date/status scan (app.py lines 506–522): try the
levels in order `(top, bot)`, skipping falsy (empty) candidates; on a
parse hit the other level, stripped, is the status label and the date is
rendered back to `YYYY-MM-DD`. -/
def classifyCol (top bot : String) : Option (String × String) :=
  if top ≠ "" then
    match parseDateFlexible top with
    | some d => some (dateToStr d, pyStrip bot)
    | none =>
      if bot ≠ "" then
        match parseDateFlexible bot with
        | some d => some (dateToStr d, pyStrip top)
        | none => none
      else none
  else
    if bot ≠ "" then
      match parseDateFlexible bot with
      | some d => some (dateToStr d, pyStrip top)
      | none => none
    else none

/-- `date_columns.setdefault(date_str, {})[status] = col`. -/
def dcInsert (ds st : String) (i : Nat) :
    List (String × List (String × Nat)) → List (String × List (String × Nat))
  | [] => [(ds, [(st, i)])]
  | (k, m) :: rest =>
    if k = ds then (k, aInsert st i m) :: rest else (k, m) :: dcInsert ds st i rest

def buildDCAux (acc : List (String × List (String × Nat))) (i : Nat) :
    List (String × String) → List (String × List (String × Nat))
  | [] => acc
  | (t, b) :: rest =>
    match classifyCol t b with
    | some (ds, st) => buildDCAux (dcInsert ds st i acc) (i + 1) rest
    | none => buildDCAux acc (i + 1) rest

/-- `date_columns` (app.py lines 504–522): date string → status label →
column position. -/
def buildDateColumns (cols : List (String × String)) : List (String × List (String × Nat)) :=
  buildDCAux [] 0 cols

def lookup2 (dc : List (String × List (String × Nat))) (ds st : String) : Option Nat :=
  match aLookup ds dc with
  | some m => aLookup st m
  | none => none

/-- The classifier pipeline on a raw header: normalise + forward-fill,
then build the date→status map. -/
def classifyHeaders (cols : List (Option String × Option String)) :
    List (String × List (String × Nat)) :=
  buildDateColumns (ffillPairs cols)

/-- `fillableCols seen cols`: every blank/placeholder top label has a
non-blank top label to its left (`seen` records whether one was seen). -/
def fillableCols : Bool → List (Option String × Option String) → Bool
  | _, [] => true
  | seen, (a, _) :: rest =>
    let aS := pyStrip (a.getD "")
    if isBlankTop aS then seen && fillableCols seen rest
    else fillableCols true rest

/-- The "equivalent header with the blanks replaced by the filled
labels": blank top labels are textually replaced by the label forward
fill assigns them, everything else kept verbatim. -/
def fillTops : Option String → List (Option String × Option String) →
    List (Option String × Option String)
  | _, [] => []
  | last, (a, b) :: rest =>
    let aS := pyStrip (a.getD "")
    if isBlankTop aS then (some (last.getD ""), b) :: fillTops last rest
    else (a, b) :: fillTops (some aS) rest

/-! ### Record store (models.py)

`matricule` is the natural key of an employee (unique in the DB), so the
embedding keys attendance records by matricule rather than by the
surrogate `employee_id`.  The six status flags are the 0/1 integers the
DB stores.  The float-valued rates are modelled over `Int`; no claim
depends on fractional rate values. -/

structure EmployeeR where
  matricule : String
  nom : Option String := none
  prenom : Option String := none
  poste : Option String := none
  site : Option String := none
  affaire : Option String := none
  classe : Option String := none
  affectation : Option String := none
  ville : Option String := none
  taux_lgt : Option Int := none
  taux_repas : Option Int := none
deriving DecidableEq, Repr

structure Flags where
  present : Nat := 0
  absent : Nat := 0
  cong : Nat := 0
  tour_rep : Nat := 0
  repos_med : Nat := 0
  sans_ph : Nat := 0
deriving DecidableEq, Repr

structure AttRec where
  emp : String
  date : Date
  flags : Flags
deriving DecidableEq, Repr

structure Store where
  employees : List EmployeeR
  atts : List AttRec
deriving DecidableEq, Repr

def flagsSum (f : Flags) : Nat :=
  f.present + f.absent + f.cong + f.tour_rep + f.repos_med + f.sans_ph

/-! ### Reconciliation Engine — `process_upload` row loop (app.py 526–662) -/

/-- The label→flag `if/elif` chain (app.py lines 611–623), applied when
the cell is truthy. -/
def applyLabel (f : Flags) (label : String) : Flags :=
  let sn := pyLower (pyStrip label)
  if containsSub sn "prés" || containsSub sn "present" then { f with present := 1 }
  else if containsSub sn "abs" then { f with absent := 1 }
  else if containsSub sn "cong" then { f with cong := 1 }
  else if containsSub sn "tour" && containsSub sn "rep" then { f with tour_rep := 1 }
  else if containsSub sn "repos" || containsSub sn "méd" || containsSub sn "med" then
    { f with repos_med := 1 }
  else if containsSub sn "sans" && containsSub sn "ph" then { f with sans_ph := 1 }
  else f

/-- The per-date flag computation (app.py lines 589–625): scan the
status cells of the date in map order. -/
def computeFlags (row : Nat → Cell) (statusMap : List (String × Nat)) : Flags :=
  statusMap.foldl (fun f p => if cell_true (row p.2) then applyLabel f p.1 else f) {}

/-- `Attendance.query.filter_by(employee_id=…, date=…).first()`. -/
def lookupAtt (atts : List AttRec) (m : String) (d : Date) : Option AttRec :=
  atts.find? (fun a => decide (a.emp = m ∧ a.date = d))

def replaceFirstAtt : List AttRec → String → Date → Flags → List AttRec
  | [], _, _, _ => []
  | a :: rest, m, d, f =>
    if a.emp = m ∧ a.date = d then { a with flags := f } :: rest
    else a :: replaceFirstAtt rest m d f

/-- The upsert (app.py lines 632–652): insert a fresh record, or
overwrite all six flags of the existing one. -/
def upsertAtt (atts : List AttRec) (m : String) (d : Date) (f : Flags) : List AttRec :=
  match lookupAtt atts m d with
  | none => atts ++ [⟨m, d, f⟩]
  | some _ => replaceFirstAtt atts m d f

/-- One `(date_str, status_map)` iteration of the dates loop (app.py
lines 580–654): re-parse the key, compute the flags, skip when no flag
is set, otherwise upsert and count. -/
def dateStep (row : Nat → Cell) (m : String)
    (acc : List AttRec × Nat) (entry : String × List (String × Nat)) : List AttRec × Nat :=
  match parseISO entry.1 with
  | none => acc
  | some dObj =>
    let f := computeFlags row entry.2
    if flagsSum f = 0 then acc
    else (upsertAtt acc.1 m dObj f, acc.2 + 1)

def dateSteps (row : Nat → Cell) (m : String) :
    List AttRec → Nat → List (String × List (String × Nat)) → List AttRec × Nat
  | atts, n, [] => (atts, n)
  | atts, n, entry :: rest =>
    let p := dateStep row m (atts, n) entry
    dateSteps row m p.1 p.2 rest

def profileKeys : List String :=
  ["nom", "prenom", "poste", "site", "affaire", "classe", "affectation", "ville"]

def updateField (e : EmployeeR) (k : String) (v : String) : EmployeeR :=
  if k = "nom" then { e with nom := some v }
  else if k = "prenom" then { e with prenom := some v }
  else if k = "poste" then { e with poste := some v }
  else if k = "site" then { e with site := some v }
  else if k = "affaire" then { e with affaire := some v }
  else if k = "classe" then { e with classe := some v }
  else if k = "affectation" then { e with affectation := some v }
  else if k = "ville" then { e with ville := some v }
  else e

def getField (e : EmployeeR) (k : String) : Option String :=
  if k = "nom" then e.nom
  else if k = "prenom" then e.prenom
  else if k = "poste" then e.poste
  else if k = "site" then e.site
  else if k = "affaire" then e.affaire
  else if k = "classe" then e.classe
  else if k = "affectation" then e.affectation
  else if k = "ville" then e.ville
  else none

/-- One profile field update (app.py lines 553–560): a present
(non-NaN) cell overwrites with its stringified, stripped value; a
missing cell leaves the attribute alone. -/
def applyProfileStep (fm : List (String × Nat)) (row : Nat → Cell)
    (e : EmployeeR) (k : String) : EmployeeR :=
  match aLookup k fm with
  | some ci =>
    match row ci with
    | Cell.none => e
    | c => updateField e k (pyStrip (cellToStr c))
  | none => e

def applyProfile (fm : List (String × Nat)) (row : Nat → Cell) (e : EmployeeR) : EmployeeR :=
  profileKeys.foldl (applyProfileStep fm row) e

/-- `float(val)` on a cell, `none` when the conversion raises (fractional
text values are approximated by integer text values). -/
def floatOfCell : Cell → Option Int
  | Cell.none => none
  | Cell.num v => some v
  | Cell.str s => if isDigits (pyStrip s) then some (digitsVal (pyStrip s)) else none

/-- The rate updates (app.py lines 562–577). -/
def applyTaux (fm : List (String × Nat)) (row : Nat → Cell) (e : EmployeeR) : EmployeeR :=
  let e1 :=
    match aLookup "taux_logement" fm with
    | some i =>
      match row i with
      | Cell.none => e
      | c => match floatOfCell c with
             | some v => { e with taux_lgt := some v }
             | none => e
    | none => e
  match aLookup "taux_repas" fm with
  | some i =>
    match row i with
    | Cell.none => e1
    | c => match floatOfCell c with
           | some v => { e1 with taux_repas := some v }
           | none => e1
  | none => e1

def freshEmployee (m : String) : EmployeeR := { matricule := m }

def findEmp (emps : List EmployeeR) (m : String) : Option EmployeeR :=
  emps.find? (fun e => decide (e.matricule = m))

/-- Write the mutated ORM object back: replace the first employee with
this matricule (unique in the DB), appending when absent. -/
def setEmp : List EmployeeR → EmployeeR → List EmployeeR
  | [], e => [e]
  | x :: xs, e => if x.matricule = e.matricule then e :: xs else x :: setEmp xs e

/-- One row of the import loop (app.py lines 530–654): resolve the
identifier (the recognised identifier column, else the first column in
file order), skip blank identifiers, find-or-create the employee, apply
profile and rate updates, then run the dates loop. -/
def processRow (fm : List (String × Nat)) (dc : List (String × List (String × Nat)))
    (acc : Store × Nat) (row : Nat → Cell) : Store × Nat :=
  let mcell :=
    match aLookup "matricule" fm with
    | some i => row i
    | none => row 0
  match mcell with
  | Cell.none => acc
  | c =>
    let m := pyStrip (cellToStr c)
    if m = "" then acc
    else
      let emp0 :=
        match findEmp acc.1.employees m with
        | some e => e
        | none => freshEmployee m
      let emps0 :=
        match findEmp acc.1.employees m with
        | some _ => acc.1.employees
        | none => acc.1.employees ++ [freshEmployee m]
      let emp1 := applyTaux fm row (applyProfile fm row emp0)
      let p := dateSteps row m acc.1.atts acc.2 dc
      ({ employees := setEmp emps0 emp1, atts := p.1 }, p.2)

def processRows (fm : List (String × Nat)) (dc : List (String × List (String × Nat))) :
    Store × Nat → List (Nat → Cell) → Store × Nat
  | acc, [] => acc
  | acc, row :: rest => processRows fm dc (processRow fm dc acc row) rest

/-- The whole import without the transaction wrapper: classifier, then
the row loop. -/
def process_upload_pure (cols : List (Option String × Option String))
    (rows : List (Nat → Cell)) (init : Store) : Store × Nat :=
  let pairs := ffillPairs cols
  processRows (buildFixedMap pairs) (buildDateColumns pairs) (init, 0) rows

/-! ### Fallible run and the transaction wrapper (app.py lines 529–662)

The record store may fail any individual write; writes are numbered in
issue order and `failOn` says which ones fail.  The session state only
becomes visible at `db.session.commit()`; any failure triggers
`db.session.rollback()` and one aggregate error. -/

def wTry (failOn : Nat → Bool) (w : Nat) : Except String Nat :=
  if failOn w then Except.error "record-store write failed" else Except.ok (w + 1)

def dateStepsF (failOn : Nat → Bool) (row : Nat → Cell) (m : String) :
    List AttRec → Nat → Nat → List (String × List (String × Nat)) →
    Except String (List AttRec × Nat × Nat)
  | atts, n, w, [] => Except.ok (atts, n, w)
  | atts, n, w, (ds, sm) :: rest =>
    match parseISO ds with
    | none => dateStepsF failOn row m atts n w rest
    | some dObj =>
      let f := computeFlags row sm
      if flagsSum f = 0 then dateStepsF failOn row m atts n w rest
      else
        match wTry failOn w with
        | Except.error e => Except.error e
        | Except.ok w2 => dateStepsF failOn row m (upsertAtt atts m dObj f) (n + 1) w2 rest

def processRowF (failOn : Nat → Bool) (fm : List (String × Nat))
    (dc : List (String × List (String × Nat)))
    (store : Store) (n w : Nat) (row : Nat → Cell) : Except String (Store × Nat × Nat) :=
  let mcell :=
    match aLookup "matricule" fm with
    | some i => row i
    | none => row 0
  match mcell with
  | Cell.none => Except.ok (store, n, w)
  | c =>
    let m := pyStrip (cellToStr c)
    if m = "" then Except.ok (store, n, w)
    else
      let createStep : Except String (List EmployeeR × EmployeeR × Nat) :=
        match findEmp store.employees m with
        | some e => Except.ok (store.employees, e, w)
        | none =>
          match wTry failOn w with
          | Except.error e => Except.error e
          | Except.ok w2 => Except.ok (store.employees ++ [freshEmployee m], freshEmployee m, w2)
      match createStep with
      | Except.error e => Except.error e
      | Except.ok (emps0, emp0, w1) =>
        let emp1 := applyTaux fm row (applyProfile fm row emp0)
        match dateStepsF failOn row m store.atts n w1 dc with
        | Except.error e => Except.error e
        | Except.ok (atts1, n1, w2) =>
          Except.ok ({ employees := setEmp emps0 emp1, atts := atts1 }, n1, w2)

def processRowsF (failOn : Nat → Bool) (fm : List (String × Nat))
    (dc : List (String × List (String × Nat))) :
    Store → Nat → Nat → List (Nat → Cell) → Except String (Store × Nat × Nat)
  | store, n, w, [] => Except.ok (store, n, w)
  | store, n, w, row :: rest =>
    match processRowF failOn fm dc store n w row with
    | Except.error e => Except.error e
    | Except.ok (store2, n2, w2) => processRowsF failOn fm dc store2 n2 w2 rest

/-- `process_upload` with the transaction wrapper.  The first component
is the committed store: the initial one when anything failed (rollback),
the session's state after `db.session.commit()` otherwise. -/
def process_uploadF (cols : List (Option String × Option String))
    (rows : List (Nat → Cell)) (failOn : Nat → Bool) (init : Store) :
    Store × Except String Nat :=
  let pairs := ffillPairs cols
  let fm := buildFixedMap pairs
  let dc := buildDateColumns pairs
  match processRowsF failOn fm dc init 0 0 rows with
  | Except.error e => (init, Except.error ("Erreur lors du traitement des données: " ++ e))
  | Except.ok (pending, n, w) =>
    match wTry failOn w with
    | Except.error e => (init, Except.error ("Erreur lors du traitement des données: " ++ e))
    | Except.ok _ => (pending, Except.ok n)

/-! ### Calendar-expanded export (app.py lines 86–252, data shape only)

Styling (colours, merges, widths) is presentation and is out of scope;
the embedding produces the data rows written at worksheet rows 3…
(`columns_data`). -/

inductive Val where
  | vs : String → Val
  | vn : Int → Val
deriving DecidableEq, Repr

/-- The in-range detail query (app.py lines 86–98), date-filtered;
records are matched per employee by matricule below, which performs the
join. -/
def attsInRange (atts : List AttRec) (s e : Date) : List AttRec :=
  atts.filter (fun a => decide (dateLe s a.date ∧ dateLe a.date e))

/-- `employees_data[m]['attendances']` (app.py lines 146–168): the
per-date dict of the employee's in-range records. -/
def attMapFor (rowsQ : List AttRec) (m : String) : List (Date × Flags) :=
  (rowsQ.filter (fun a => decide (a.emp = m))).foldl
    (fun acc a => aInsert a.date a.flags acc) []

def addFlags (a b : Flags) : Flags :=
  ⟨a.present + b.present, a.absent + b.absent, a.cong + b.cong,
   a.tour_rep + b.tour_rep, a.repos_med + b.repos_med, a.sans_ph + b.sans_ph⟩

/-- `employee_totals[m]` (app.py lines 137–176): six running sums over
the employee's in-range records. -/
def totalsFor (rowsQ : List AttRec) (m : String) : Flags :=
  (rowsQ.filter (fun a => decide (a.emp = m))).foldl (fun t a => addFlags t a.flags) {}

/-- The six status values in output order
(Présent, Absent, CONG, Tour_rep, Repos_med, Sans_ph). -/
def flagsList (f : Flags) : List Nat :=
  [f.present, f.absent, f.cong, f.tour_rep, f.repos_med, f.sans_ph]

/-- The eleven fixed profile columns of a data row (app.py lines 198–210). -/
def profileVals (emp : EmployeeR) : List Val :=
  [Val.vs emp.matricule, Val.vs (emp.nom.getD ""), Val.vs (emp.prenom.getD ""),
   Val.vs (emp.poste.getD ""), Val.vs (emp.site.getD ""), Val.vs (emp.affaire.getD ""),
   Val.vs (emp.classe.getD ""), Val.vs (emp.affectation.getD ""),
   Val.vs (emp.ville.getD ""),
   Val.vn (emp.taux_lgt.getD 0), Val.vn (emp.taux_repas.getD 0)]

/-- `attendances.get(date_obj, {})` with per-field `.get(…, 0)`. -/
def dayFlags (amap : List (Date × Flags)) (d : Date) : Flags := (aLookup d amap).getD {}

/-- One employee data row (app.py lines 196–235): profile columns, one
six-value group per date of the range, the totals group. -/
def exportRow (rowsQ : List AttRec) (days : List Date) (emp : EmployeeR) : List Val :=
  let amap := attMapFor rowsQ emp.matricule
  profileVals emp
    ++ days.flatMap (fun d => (flagsList (dayFlags amap d)).map (fun k => Val.vn (Int.ofNat k)))
    ++ (flagsList (totalsFor rowsQ emp.matricule)).map (fun k => Val.vn (Int.ofNat k))

/-- `columns_data` (app.py lines 101–235): one data row per entry of the
`employees_data` dict, keyed by matricule in employee-list order. -/
def exportTable (emps : List EmployeeR) (atts : List AttRec) (s e : Date) : List (List Val) :=
  let rowsQ := attsInRange atts s e
  let days := daysRange s e
  let edata := emps.foldl (fun acc emp => aInsert emp.matricule emp acc)
    ([] : List (String × EmployeeR))
  edata.map (fun p => exportRow rowsQ days p.2)

/-! ### Auxiliaries for the statements below -/

/-- A concrete spreadsheet row: cell `i` of the list, missing beyond. -/
def rowOf (cs : List Cell) : Nat → Cell := fun i => cs.getD i Cell.none

/-- Relative position of the last column of the list that the date/status
scan classifies to the key `(ds, st)`. -/
def lastClassIdx (ds st : String) : List (String × String) → Option Nat
  | [] => none
  | c :: rest =>
    match lastClassIdx ds st rest with
    | some k => some (k + 1)
    | none => if classifyCol c.1 c.2 = some (ds, st) then some 0 else none

/-- Componentwise sum, over the days of the range, of the six values the
export writes into that day's column group. -/
def sumDayFlags (amap : List (Date × Flags)) (days : List Date) : Flags :=
  days.foldl (fun acc d => addFlags acc (dayFlags amap d)) {}

/-! ## Theorems -/

/-! ### C2 — Status Normalizer truthiness -/

/-- C2 counterexample: the spec demands that a numeric cell normalizes to
true iff it is strictly positive (so `-1` → false), but `cell_true` tests
`val != 0`: the numeric value `-1` normalizes to true. -/
theorem c2_negative_sentinel_is_true :
    cell_true (Cell.num (-1)) = true ∧ cell_true_specWords (Cell.num (-1)) = false := by
  decide

/-- C2 (amended): blank/missing cells normalize to false; a numeric cell
normalizes to true iff it is non-zero (not iff strictly positive); a text
cell normalizes to true iff its stripped, lowered form is one of the
affirmative tokens or is a digit string with value greater than zero. -/
theorem c2_cell_true_characterisation :
    cell_true Cell.none = false ∧
    (∀ v : Int, cell_true (Cell.num v) = decide (v ≠ 0)) ∧
    (∀ s : String,
      cell_true (Cell.str s) =
        (tokensTrue.contains (pyLower (pyStrip s)) ||
         (isDigits (pyLower (pyStrip s)) && decide (0 < digitsVal (pyLower (pyStrip s)))))) := by
  refine ⟨rfl, ?_, ?_⟩
  · intro v
    by_cases hv : v = 0 <;> simp [cell_true, hv]
  · intro s
    have hbne : ∀ k : Nat, (k != 0) = decide (0 < k) := by
      intro k
      cases k <;> simp
    simp only [cell_true]
    by_cases h : pyLower (pyStrip s) = ""
    · rw [h]
      decide
    · rw [if_neg h, hbne]

/-! ### C1 — replace merge policy -/

theorem lookupAtt_nil (m : String) (d : Date) : lookupAtt [] m d = none := rfl

theorem lookupAtt_replaceFirst (m : String) (d : Date) (f : Flags) :
    ∀ atts : List AttRec, lookupAtt atts m d ≠ none →
    lookupAtt (replaceFirstAtt atts m d f) m d = some ⟨m, d, f⟩ := by
  intro atts
  induction atts with
  | nil => intro hne; exact absurd (lookupAtt_nil m d) hne
  | cons a rest ih =>
    intro hne
    by_cases hm : a.emp = m ∧ a.date = d
    · unfold replaceFirstAtt
      rw [if_pos hm]
      unfold lookupAtt
      simp only [List.find?]
      have hd : (decide (({ a with flags := f } : AttRec).emp = m ∧
          ({ a with flags := f } : AttRec).date = d)) = true := by
        simpa using hm
      rw [hd]
      obtain ⟨h1, h2⟩ := hm
      simp [h1, h2]
    · unfold replaceFirstAtt
      rw [if_neg hm]
      have hdf : (decide (a.emp = m ∧ a.date = d)) = false := by simpa using hm
      unfold lookupAtt at hne ⊢
      simp only [List.find?, hdf] at hne ⊢
      exact ih hne

/-- C1: when the dates loop touches an `(employee, date)` pair that
already has an attendance record and at least one flag is set, the
existing record's six flags are fully overwritten by the flags computed
from the new import (last-write-wins), and the processed counter
increments. -/
theorem c1_replace_policy (row : Nat → Cell) (m : String) (atts : List AttRec) (n : Nat)
    (ds : String) (sm : List (String × Nat)) (dObj : Date) (old : AttRec)
    (hparse : parseISO ds = some dObj)
    (hold : lookupAtt atts m dObj = some old)
    (hnz : flagsSum (computeFlags row sm) ≠ 0) :
    lookupAtt (dateStep row m (atts, n) (ds, sm)).1 m dObj
      = some ⟨m, dObj, computeFlags row sm⟩ ∧
    (dateStep row m (atts, n) (ds, sm)).2 = n + 1 := by
  have hstep : dateStep row m (atts, n) (ds, sm)
      = (upsertAtt atts m dObj (computeFlags row sm), n + 1) := by
    simp only [dateStep, hparse, if_neg hnz]
  rw [hstep]
  refine ⟨?_, rfl⟩
  show lookupAtt (upsertAtt atts m dObj (computeFlags row sm)) m dObj = _
  unfold upsertAtt
  rw [hold]
  exact lookupAtt_replaceFirst m dObj (computeFlags row sm) atts (by rw [hold]; exact fun h => nomatch h)

/-- C1 witness: a record with only `absent` set is fully overwritten by a
re-import asserting only `Présent`; the previously-true `absent` flag is
cleared. -/
theorem c1_replace_policy_witness :
    lookupAtt (dateStep (rowOf [Cell.str "x"]) "E1"
        ([⟨"E1", ⟨2024, 1, 1⟩, { absent := 1 }⟩], 0) ("2024-01-01", [("Présent", 0)])).1
        "E1" ⟨2024, 1, 1⟩
      = some ⟨"E1", ⟨2024, 1, 1⟩, { present := 1 }⟩ := by
  have h := c1_replace_policy (rowOf [Cell.str "x"]) "E1"
    [⟨"E1", ⟨2024, 1, 1⟩, { absent := 1 }⟩] 0 "2024-01-01" [("Présent", 0)]
    ⟨2024, 1, 1⟩ ⟨"E1", ⟨2024, 1, 1⟩, { absent := 1 }⟩ (by decide) (by decide) (by decide)
  rw [h.1]
  decide

/-! ### C3 — all-false flags produce no record -/

/-- C3: when all six status flags computed from the row's cells for a
date are false, the dates-loop step leaves the attendance list and the
processed-facts counter exactly as they were: no record is created or
modified. -/
theorem c3_no_positive_signal_no_record (row : Nat → Cell) (m : String)
    (atts : List AttRec) (n : Nat) (ds : String) (sm : List (String × Nat))
    (h : (computeFlags row sm).present = 0 ∧ (computeFlags row sm).absent = 0 ∧
         (computeFlags row sm).cong = 0 ∧ (computeFlags row sm).tour_rep = 0 ∧
         (computeFlags row sm).repos_med = 0 ∧ (computeFlags row sm).sans_ph = 0) :
    dateStep row m (atts, n) (ds, sm) = (atts, n) := by
  unfold dateStep
  cases hp : parseISO ds with
  | none => rfl
  | some dObj =>
    have hz : flagsSum (computeFlags row sm) = 0 := by
      unfold flagsSum
      omega
    simp [hz]

/-- C3 witness: a row whose status cells are all blank for the date
leaves the store untouched and the counter at its old value. -/
theorem c3_no_positive_signal_no_record_witness :
    dateStep (rowOf [Cell.str "E1", Cell.none, Cell.str ""]) "E1"
        ([⟨"E1", ⟨2024, 1, 2⟩, { present := 1 }⟩], 5)
        ("2024-01-01", [("Présent", 1), ("Absent", 2)])
      = ([⟨"E1", ⟨2024, 1, 2⟩, { present := 1 }⟩], 5) :=
  c3_no_positive_signal_no_record (rowOf [Cell.str "E1", Cell.none, Cell.str ""]) "E1"
    [⟨"E1", ⟨2024, 1, 2⟩, { present := 1 }⟩] 5 "2024-01-01"
    [("Présent", 1), ("Absent", 2)] (by decide)

/-! ### Association-list lemmas -/

theorem aLookup_aInsert_self {κ α : Type} [DecidableEq κ] (k : κ) (v : α) :
    ∀ l : List (κ × α), aLookup k (aInsert k v l) = some v := by
  intro l
  induction l with
  | nil => simp [aInsert, aLookup]
  | cons p rest ih =>
    obtain ⟨k0, v0⟩ := p
    by_cases h : k0 = k
    · simp [aInsert, aLookup, h]
    · simp only [aInsert, aLookup, if_neg h]
      exact ih

theorem aLookup_aInsert_other {κ α : Type} [DecidableEq κ] (k k2 : κ) (v : α)
    (hne : k2 ≠ k) : ∀ l : List (κ × α), aLookup k (aInsert k2 v l) = aLookup k l := by
  intro l
  induction l with
  | nil => simp [aInsert, aLookup, hne]
  | cons p rest ih =>
    obtain ⟨k0, v0⟩ := p
    by_cases h : k0 = k2
    · subst h
      simp [aInsert, aLookup, hne]
    · simp only [aInsert, if_neg h, aLookup]
      by_cases h2 : k0 = k
      · simp [h2]
      · simp only [if_neg h2]
        exact ih

/-! ### C10 — duplicate (date, status) columns: last write wins -/

theorem lookup2_dcInsert_self (ds st : String) (i : Nat) :
    ∀ dc, lookup2 (dcInsert ds st i dc) ds st = some i := by
  intro dc
  induction dc with
  | nil => simp [dcInsert, lookup2, aLookup, aInsert]
  | cons p rest ih =>
    obtain ⟨k, m⟩ := p
    by_cases h : k = ds
    · subst h
      simp only [dcInsert, if_pos rfl, lookup2, aLookup, if_pos rfl]
      exact aLookup_aInsert_self st i m
    · simp only [dcInsert, if_neg h, lookup2, aLookup, if_neg h]
      exact ih

theorem lookup2_dcInsert_other (ds st ds2 st2 : String) (i : Nat)
    (h : ¬(ds2 = ds ∧ st2 = st)) :
    ∀ dc, lookup2 (dcInsert ds2 st2 i dc) ds st = lookup2 dc ds st := by
  intro dc
  induction dc with
  | nil =>
    by_cases hd : ds2 = ds
    · subst hd
      have hst : st2 ≠ st := fun he => h ⟨rfl, he⟩
      simp [dcInsert, lookup2, aLookup, hst]
    · simp [dcInsert, lookup2, aLookup, hd]
  | cons p rest ih =>
    obtain ⟨k, m⟩ := p
    by_cases hk : k = ds2
    · subst hk
      by_cases hd : k = ds
      · subst hd
        have hst : st2 ≠ st := fun he => h ⟨rfl, he⟩
        simp only [dcInsert, if_pos rfl, lookup2, aLookup, if_pos rfl]
        exact aLookup_aInsert_other st st2 i hst m
      · simp [dcInsert, lookup2, aLookup, hd]
    · by_cases hd : k = ds
      · subst hd
        simp [dcInsert, lookup2, aLookup, hk]
      · simp only [dcInsert, if_neg hk, lookup2, aLookup, if_neg hd]
        exact ih

theorem lookup2_buildDCAux (ds st : String) :
    ∀ (cols : List (String × String)) (acc : List (String × List (String × Nat))) (i : Nat),
    lookup2 (buildDCAux acc i cols) ds st
      = match lastClassIdx ds st cols with
        | some k => some (i + k)
        | none => lookup2 acc ds st := by
  intro cols
  induction cols with
  | nil => intro acc i; rfl
  | cons c rest ih =>
    intro acc i
    obtain ⟨t, b⟩ := c
    cases hc : classifyCol t b with
    | none =>
      simp only [buildDCAux, hc]
      rw [ih]
      cases hr : lastClassIdx ds st rest with
      | some k =>
        simp only [lastClassIdx, hr]
        have : i + 1 + k = i + (k + 1) := by omega
        rw [this]
      | none =>
        have hne : ¬(classifyCol t b = some (ds, st)) := by rw [hc]; exact fun hx => nomatch hx
        simp [lastClassIdx, hr, hne]
    | some p =>
      obtain ⟨ds2, st2⟩ := p
      by_cases hkey : ds2 = ds ∧ st2 = st
      · rw [hkey.1, hkey.2] at hc
        simp only [buildDCAux, hc]
        rw [ih]
        simp only [lastClassIdx]
        cases hr : lastClassIdx ds st rest with
        | some k =>
          simp only [hr]
          have h12 : i + 1 + k = i + (k + 1) := by omega
          rw [h12]
        | none =>
          simp only [hr, hc, if_pos rfl]
          rw [lookup2_dcInsert_self]
          simp
      · simp only [buildDCAux, hc]
        rw [ih]
        simp only [lastClassIdx]
        cases hr : lastClassIdx ds st rest with
        | some k =>
          simp only [hr]
          have h12 : i + 1 + k = i + (k + 1) := by omega
          rw [h12]
        | none =>
          have hne : ¬(classifyCol t b = some (ds, st)) := by
            rw [hc]
            intro hx
            exact hkey (by injection hx with h; exact ⟨congrArg Prod.fst h, congrArg Prod.snd h⟩)
          simp only [hr, if_neg hne]
          exact lookup2_dcInsert_other ds st ds2 st2 i hkey acc

theorem lastClassIdx_ge (ds st : String) :
    ∀ (cols : List (String × String)) (j : Nat) (c : String × String),
    cols.get? j = some c → classifyCol c.1 c.2 = some (ds, st) →
    ∃ k, lastClassIdx ds st cols = some k ∧ j ≤ k := by
  intro cols
  induction cols with
  | nil => intro j c hj; simp at hj
  | cons c0 rest ih =>
    intro j c hj hc
    cases j with
    | zero =>
      simp only [List.get?] at hj
      injection hj with hj
      subst hj
      cases hr : lastClassIdx ds st rest with
      | some k => exact ⟨k + 1, by simp [lastClassIdx, hr], by omega⟩
      | none => exact ⟨0, by simp [lastClassIdx, hr, hc], le_refl 0⟩
    | succ j0 =>
      simp only [List.get?] at hj
      obtain ⟨k, hk, hjk⟩ := ih j0 c hj hc
      exact ⟨k + 1, by simp [lastClassIdx, hk], by omega⟩

theorem lastClassIdx_max (ds st : String) :
    ∀ (cols : List (String × String)) (k : Nat), lastClassIdx ds st cols = some k →
    ∀ (j : Nat) (c : String × String), cols.get? j = some c →
    classifyCol c.1 c.2 = some (ds, st) → j ≤ k := by
  intro cols
  induction cols with
  | nil => intro k hk; simp [lastClassIdx] at hk
  | cons c0 rest ih =>
    intro k hk j c hj hc
    cases hr : lastClassIdx ds st rest with
    | some k0 =>
      simp only [lastClassIdx, hr] at hk
      injection hk with hk
      cases j with
      | zero => omega
      | succ j0 =>
        simp only [List.get?] at hj
        have := ih k0 hr j0 c hj hc
        omega
    | none =>
      simp only [lastClassIdx, hr] at hk
      cases j with
      | zero => omega
      | succ j0 =>
        simp only [List.get?] at hj
        obtain ⟨k1, hk1, _⟩ := lastClassIdx_ge ds st rest j0 c hj hc
        rw [hr] at hk1
        exact absurd hk1 (fun h => nomatch h)

theorem lastClassIdx_classifies (ds st : String) :
    ∀ (cols : List (String × String)) (k : Nat), lastClassIdx ds st cols = some k →
    ∃ c, cols.get? k = some c ∧ classifyCol c.1 c.2 = some (ds, st) := by
  intro cols
  induction cols with
  | nil => intro k hk; simp [lastClassIdx] at hk
  | cons c0 rest ih =>
    intro k hk
    cases hr : lastClassIdx ds st rest with
    | some k0 =>
      simp only [lastClassIdx, hr] at hk
      injection hk with hk
      subst hk
      obtain ⟨c, hc, hcc⟩ := ih k0 hr
      exact ⟨c, by simpa [List.get?] using hc, hcc⟩
    | none =>
      simp only [lastClassIdx, hr] at hk
      by_cases hc : classifyCol c0.1 c0.2 = some (ds, st)
      · rw [if_pos hc] at hk
        injection hk with hk
        subst hk
        exact ⟨c0, rfl, hc⟩
      · rw [if_neg hc] at hk
        exact absurd hk (fun h => nomatch h)

/-- C10: when two distinct columns both resolve to the same calendar date
and the same stripped status label, the `date_columns` map keeps only the
last of them in file order; the earlier column's position appears nowhere
in the map, so its cells are never consulted by the row loop. -/
theorem c10_duplicate_status_last_wins
    (cols : List (String × String)) (i j : Nat) (ci cj : String × String) (ds st : String)
    (hij : i < j)
    (hi : cols.get? i = some ci) (hci : classifyCol ci.1 ci.2 = some (ds, st))
    (hj : cols.get? j = some cj) (hcj : classifyCol cj.1 cj.2 = some (ds, st)) :
    ∃ k, lookup2 (buildDateColumns cols) ds st = some k ∧ j ≤ k ∧ k ≠ i ∧
      (∀ (l : Nat) (cl : String × String), cols.get? l = some cl →
        classifyCol cl.1 cl.2 = some (ds, st) → l ≤ k) ∧
      (∀ ds2 st2, lookup2 (buildDateColumns cols) ds2 st2 ≠ some i) := by
  obtain ⟨k, hk, hjk⟩ := lastClassIdx_ge ds st cols j cj hj hcj
  have hmain : lookup2 (buildDateColumns cols) ds st = some k := by
    have h0 := lookup2_buildDCAux ds st cols [] 0
    rw [hk] at h0
    simpa using h0
  refine ⟨k, hmain, hjk, by omega, ?_, ?_⟩
  · intro l cl hl hcl
    exact lastClassIdx_max ds st cols k hk l cl hl hcl
  · intro ds2 st2 habs
    unfold buildDateColumns at habs
    have h0 := lookup2_buildDCAux ds2 st2 cols [] 0
    rw [habs] at h0
    cases hr : lastClassIdx ds2 st2 cols with
    | none =>
      rw [hr] at h0
      simp [lookup2, aLookup] at h0
    | some k2 =>
      rw [hr] at h0
      injection h0 with h0
      have hk2 : k2 = i := by omega
      rw [hk2] at hr
      obtain ⟨c, hcg, hcc⟩ := lastClassIdx_classifies ds2 st2 cols i hr
      rw [hi] at hcg
      injection hcg with hcg
      subst hcg
      rw [hci] at hcc
      injection hcc with hcc
      have hds : ds2 = ds := (congrArg Prod.fst hcc).symm
      have hst : st2 = st := (congrArg Prod.snd hcc).symm
      subst hds; subst hst
      rw [hk] at hr
      injection hr with hr
      omega

/-- C10 witness: two columns for the same date whose status labels strip
to the same string; the map keeps index 1 and index 0 occurs nowhere. -/
theorem c10_duplicate_status_last_wins_witness :
    ∃ k, lookup2 (buildDateColumns [("01/01/2024", "Présent"), ("01/01/2024", " Présent ")])
        "2024-01-01" "Présent" = some k ∧ 1 ≤ k ∧ k ≠ 0 ∧
      (∀ (l : Nat) (cl : String × String),
        [("01/01/2024", "Présent"), ("01/01/2024", " Présent ")].get? l = some cl →
        classifyCol cl.1 cl.2 = some ("2024-01-01", "Présent") → l ≤ k) ∧
      (∀ ds2 st2, lookup2 (buildDateColumns [("01/01/2024", "Présent"), ("01/01/2024", " Présent ")])
        ds2 st2 ≠ some 0) :=
  c10_duplicate_status_last_wins
    [("01/01/2024", "Présent"), ("01/01/2024", " Présent ")] 0 1
    ("01/01/2024", "Présent") ("01/01/2024", " Présent ") "2024-01-01" "Présent"
    (by omega) (by decide) (by decide) (by decide) (by decide)

/-! ### C4 — profile fields: which cells overwrite -/

set_option maxHeartbeats 2000000 in
theorem getField_updateField_other (e : EmployeeR) (k2 k v : String) (hne : k2 ≠ k) :
    getField (updateField e k2 v) k = getField e k := by
  unfold updateField
  split_ifs with h1 h2 h3 h4 h5 h6 h7 h8 <;>
    · unfold getField
      split_ifs <;> first
      | rfl
      | (exfalso; apply hne; subst_vars; rfl)

theorem getField_updateField_self (e : EmployeeR) (k v : String) (hk : k ∈ profileKeys) :
    getField (updateField e k v) k = some v := by
  fin_cases hk <;> rfl

theorem getField_applyProfileStep_other (fm : List (String × Nat)) (row : Nat → Cell)
    (e : EmployeeR) (k2 k : String) (hne : k2 ≠ k) :
    getField (applyProfileStep fm row e k2) k = getField e k := by
  unfold applyProfileStep
  cases aLookup k2 fm with
  | none => rfl
  | some i =>
    show getField (match row i with
      | Cell.none => e
      | c => updateField e k2 (pyStrip (cellToStr c))) k = getField e k
    cases row i with
    | none => rfl
    | num v => exact getField_updateField_other e k2 k _ hne
    | str s => exact getField_updateField_other e k2 k _ hne

theorem getField_foldl_not_mem (fm : List (String × Nat)) (row : Nat → Cell) (k : String) :
    ∀ (ks : List String) (e : EmployeeR), k ∉ ks →
    getField (ks.foldl (applyProfileStep fm row) e) k = getField e k := by
  intro ks
  induction ks with
  | nil => intro e _; rfl
  | cons k2 rest ih =>
    intro e hk
    show getField (rest.foldl _ (applyProfileStep fm row e k2)) k = _
    rw [ih _ (fun h => hk (List.mem_cons_of_mem _ h))]
    exact getField_applyProfileStep_other fm row e k2 k (fun h => hk (h ▸ List.mem_cons_self _ _))

theorem getField_foldl_missing (fm : List (String × Nat)) (row : Nat → Cell) (k : String)
    (hk : aLookup k fm = none ∨ ∃ i, aLookup k fm = some i ∧ row i = Cell.none) :
    ∀ (ks : List String) (e : EmployeeR),
    getField (ks.foldl (applyProfileStep fm row) e) k = getField e k := by
  intro ks
  induction ks with
  | nil => intro e; rfl
  | cons k2 rest ih =>
    intro e
    show getField (rest.foldl _ (applyProfileStep fm row e k2)) k = _
    rw [ih]
    by_cases h : k2 = k
    · subst h
      rcases hk with h1 | ⟨i, h1, h2⟩
      · unfold applyProfileStep
        rw [h1]
      · unfold applyProfileStep
        rw [h1]
        show getField (match row i with
          | Cell.none => e
          | c => updateField e k2 (pyStrip (cellToStr c))) k2 = getField e k2
        rw [h2]
    · exact getField_applyProfileStep_other fm row e k2 k h

theorem getField_foldl_present (fm : List (String × Nat)) (row : Nat → Cell) :
    ∀ (ks : List String) (e : EmployeeR) (k : String) (i : Nat), ks.Nodup → k ∈ ks →
    k ∈ profileKeys → aLookup k fm = some i → row i ≠ Cell.none →
    getField (ks.foldl (applyProfileStep fm row) e) k = some (pyStrip (cellToStr (row i))) := by
  intro ks
  induction ks with
  | nil => intro e k i _ hmem; simp at hmem
  | cons k2 rest ih =>
    intro e k i hnd hmem hpk hlk hrow
    by_cases h : k2 = k
    · subst h
      have hknotin : k2 ∉ rest := (List.nodup_cons.mp hnd).1
      show getField (rest.foldl _ (applyProfileStep fm row e k2)) k2 = _
      rw [getField_foldl_not_mem fm row k2 rest _ hknotin]
      unfold applyProfileStep
      rw [hlk]
      show getField (match row i with
        | Cell.none => e
        | c => updateField e k2 (pyStrip (cellToStr c))) k2 = some (pyStrip (cellToStr (row i)))
      cases hc : row i with
      | none => exact absurd hc hrow
      | num v => exact getField_updateField_self e k2 _ hpk
      | str s => exact getField_updateField_self e k2 _ hpk
    · have hmem2 : k ∈ rest := by
        cases List.mem_cons.mp hmem with
        | inl he => exact absurd he.symm h
        | inr hr => exact hr
      exact ih _ k i (List.nodup_cons.mp hnd).2 hmem2 hpk hlk hrow

/-- C4 counterexample: a cell holding a single space is not NaN, so the
guard `pd.notna(val)` passes and the stored name is overwritten with the
stripped — empty — string: an empty value erases existing data. -/
theorem c4_whitespace_cell_overwrites :
    (applyProfile [("nom", 0)] (rowOf [Cell.str " "])
      { matricule := "E1", nom := some "Dupont" }).nom = some "" := by
  decide

/-- C4 (amended): only a missing (NaN) cell — or an unrecognised column —
leaves a stored profile field unchanged; every present cell overwrites the
field with its stringified, stripped value, including cells that strip to
the empty string. -/
theorem c4_profile_field_update (fm : List (String × Nat)) (row : Nat → Cell)
    (e : EmployeeR) (k : String) (hk : k ∈ profileKeys) :
    (aLookup k fm = none → getField (applyProfile fm row e) k = getField e k) ∧
    (∀ i, aLookup k fm = some i → row i = Cell.none →
      getField (applyProfile fm row e) k = getField e k) ∧
    (∀ i, aLookup k fm = some i → row i ≠ Cell.none →
      getField (applyProfile fm row e) k = some (pyStrip (cellToStr (row i)))) := by
  refine ⟨?_, ?_, ?_⟩
  · intro h
    exact getField_foldl_missing fm row k (Or.inl h) profileKeys e
  · intro i h1 h2
    exact getField_foldl_missing fm row k (Or.inr ⟨i, h1, h2⟩) profileKeys e
  · intro i h1 h2
    exact getField_foldl_present fm row profileKeys e k i (by decide) hk hk h1 h2

/-- C4 witness: with the name column mapped to a NaN cell, the stored
name survives the import row. -/
theorem c4_profile_field_update_witness :
    getField (applyProfile [("nom", 0)] (rowOf [Cell.none])
      { matricule := "E1", nom := some "Dupont" }) "nom" = some "Dupont" := by
  have h := c4_profile_field_update [("nom", 0)] (rowOf [Cell.none])
    { matricule := "E1", nom := some "Dupont" } "nom" (by decide)
  rw [h.2.1 0 (by decide) (by decide)]
  decide

/-! ### C5 — missing identifier column: lenient fallback, not a hard failure -/

theorem matricule_updateField (e : EmployeeR) (k v : String) :
    (updateField e k v).matricule = e.matricule := by
  unfold updateField
  split_ifs <;> rfl

theorem matricule_applyProfileStep (fm : List (String × Nat)) (row : Nat → Cell)
    (e : EmployeeR) (k : String) :
    (applyProfileStep fm row e k).matricule = e.matricule := by
  unfold applyProfileStep
  cases aLookup k fm with
  | none => rfl
  | some i =>
    show (match row i with
      | Cell.none => e
      | c => updateField e k (pyStrip (cellToStr c))).matricule = e.matricule
    cases row i with
    | none => rfl
    | num v => exact matricule_updateField e k _
    | str s => exact matricule_updateField e k _

theorem matricule_applyProfile (fm : List (String × Nat)) (row : Nat → Cell) :
    ∀ (ks : List String) (e : EmployeeR),
    (ks.foldl (applyProfileStep fm row) e).matricule = e.matricule := by
  intro ks
  induction ks with
  | nil => intro e; rfl
  | cons k rest ih =>
    intro e
    show (rest.foldl _ (applyProfileStep fm row e k)).matricule = e.matricule
    rw [ih]
    exact matricule_applyProfileStep fm row e k

theorem matricule_applyTaux (fm : List (String × Nat)) (row : Nat → Cell) (e : EmployeeR) :
    (applyTaux fm row e).matricule = e.matricule := by
  unfold applyTaux
  repeat' split
  all_goals rfl

theorem findEmp_matricule (l : List EmployeeR) (m : String) (e : EmployeeR)
    (h : findEmp l m = some e) : e.matricule = m := by
  unfold findEmp at h
  have h2 := List.find?_some h
  simpa using h2

theorem findEmp_setEmp (m : String) (e : EmployeeR) (he : e.matricule = m) :
    ∀ l : List EmployeeR, findEmp (setEmp l e) m = some e := by
  intro l
  induction l with
  | nil => simp [setEmp, findEmp, List.find?, he]
  | cons x xs ih =>
    by_cases h : x.matricule = e.matricule
    · simp only [setEmp, if_pos h]
      simp [findEmp, List.find?, he]
    · simp only [setEmp, if_neg h]
      have hxm : ¬x.matricule = m := fun hx => h (hx.trans he.symm)
      have hx : (decide (x.matricule = m)) = false := by simp [hxm]
      unfold findEmp at ih ⊢
      simp only [List.find?, hx]
      exact ih

/-- C5 counterexample: headers with zero recognizable identifier column
(a lone date/status column).  The import is not a hard failure: it runs
to a successful commit, processes the row, and creates employee E1 from
the first column in file order. -/
theorem c5_no_identifier_not_fatal :
    aLookup "matricule" (buildFixedMap (ffillPairs [(some "01/01/2024", some "Présent")])) = none ∧
    process_uploadF [(some "01/01/2024", some "Présent")] [rowOf [Cell.str "E1"]]
        (fun _ => false) ⟨[], []⟩
      = (⟨[freshEmployee "E1"], []⟩, Except.ok 0) :=
  ⟨rfl, rfl⟩

/-- C5 (amended): when the classifier recognises no identifier column,
the row loop falls back to the first column in file order as the
identifier source and processes rows normally — after the row, an
employee named by the (stripped) first-column value exists in the store. -/
theorem c5_fallback_first_column (fm : List (String × Nat))
    (dc : List (String × List (String × Nat))) (store : Store) (n : Nat) (row : Nat → Cell)
    (hfm : aLookup "matricule" fm = none)
    (hnotna : row 0 ≠ Cell.none)
    (hm : pyStrip (cellToStr (row 0)) ≠ "") :
    (findEmp (processRow fm dc (store, n) row).1.employees
      (pyStrip (cellToStr (row 0)))).isSome = true := by
  cases hc : row 0 with
  | none => exact absurd hc hnotna
  | num v =>
    have hm2 : pyStrip (cellToStr (Cell.num v)) ≠ "" := by rw [← hc]; exact hm
    simp only [processRow, hfm, hc]
    rw [if_neg hm2]
    dsimp only
    cases hfind : findEmp store.employees (pyStrip (cellToStr (Cell.num v))) with
    | some e =>
      simp only [hfind]
      have he : e.matricule = pyStrip (cellToStr (Cell.num v)) :=
        findEmp_matricule _ _ _ hfind
      rw [findEmp_setEmp _ _ (by
        rw [matricule_applyTaux]
        unfold applyProfile
        rw [matricule_applyProfile]
        exact he)]
      rfl
    | none =>
      simp only [hfind]
      rw [findEmp_setEmp _ _ (by
        rw [matricule_applyTaux]
        unfold applyProfile
        rw [matricule_applyProfile]
        rfl)]
      rfl
  | str s =>
    have hm2 : pyStrip (cellToStr (Cell.str s)) ≠ "" := by rw [← hc]; exact hm
    simp only [processRow, hfm, hc]
    rw [if_neg hm2]
    dsimp only
    cases hfind : findEmp store.employees (pyStrip (cellToStr (Cell.str s))) with
    | some e =>
      simp only [hfind]
      have he : e.matricule = pyStrip (cellToStr (Cell.str s)) :=
        findEmp_matricule _ _ _ hfind
      rw [findEmp_setEmp _ _ (by
        rw [matricule_applyTaux]
        unfold applyProfile
        rw [matricule_applyProfile]
        exact he)]
      rfl
    | none =>
      simp only [hfind]
      rw [findEmp_setEmp _ _ (by
        rw [matricule_applyTaux]
        unfold applyProfile
        rw [matricule_applyProfile]
        rfl)]
      rfl

/-- C5 amended-claim witness: two rows, no identifier column; both E1 and
E2 exist after their rows despite the missing identifier header. -/
theorem c5_fallback_first_column_witness :
    (findEmp (processRow [] [("2024-01-01", [("Présent", 1)])]
        (⟨[], []⟩, 0) (rowOf [Cell.str " E2 ", Cell.str "x"])).1.employees
      (pyStrip (cellToStr (rowOf [Cell.str " E2 ", Cell.str "x"] 0)))).isSome = true :=
  c5_fallback_first_column [] [("2024-01-01", [("Présent", 1)])] ⟨[], []⟩ 0
    (rowOf [Cell.str " E2 ", Cell.str "x"]) rfl (by decide) (by decide)

/-! ### C8 — a column matching both a profile variant and a date pattern -/

/-- C8 counterexample: the column `("matricule", "01/02/2024")` matches
the identifier profile variant and also carries a date level; the
classifier records it in the profile map AND in the date→status map (the
profile match does not exclude the column from the date scan, and its
cells are read as status cells for 2024-02-01). -/
theorem c8_profile_match_does_not_exclude :
    aLookup "matricule" (buildFixedMap [("matricule", "01/02/2024")]) = some 0 ∧
    lookup2 (buildDateColumns [("matricule", "01/02/2024")]) "2024-02-01" "matricule" = some 0 := by
  exact ⟨rfl, rfl⟩

/-- C8 (amended): a column whose two header levels match both a canonical
profile-field variant and a date pattern is classified as BOTH a profile
field and a date/status column: for a single-column header it appears in
the profile map and in the date→status map simultaneously. -/
theorem c8_both_tables_record_column (top bot c ds st : String)
    (hcanon : findCanon top bot = some c)
    (hdate : classifyCol top bot = some (ds, st)) :
    aLookup c (buildFixedMap [(top, bot)]) = some 0 ∧
    lookup2 (buildDateColumns [(top, bot)]) ds st = some 0 := by
  constructor
  · unfold buildFixedMap buildFMAux
    rw [hcanon]
    show aLookup c (buildFMAux (aInsert c 0 []) 1 []) = some 0
    simp [buildFMAux, aInsert, aLookup]
  · unfold buildDateColumns buildDCAux
    rw [hdate]
    show lookup2 (buildDCAux (dcInsert ds st 0 []) 1 []) ds st = some 0
    simp [buildDCAux]
    exact lookup2_dcInsert_self ds st 0 []

/-- C8 amended-claim witness, at the concrete double-matching column. -/
theorem c8_both_tables_record_column_witness :
    aLookup "matricule" (buildFixedMap [("matricule", "01/02/2024")]) = some 0 ∧
    lookup2 (buildDateColumns [("matricule", "01/02/2024")]) "2024-02-01" "matricule" = some 0 :=
  c8_both_tables_record_column "matricule" "01/02/2024" "matricule" "2024-02-01" "matricule"
    (by decide) (by decide)

/-! ### C7 — forward fill of merged-cell date bands round-trips -/

theorem stripLaux_idem : ∀ l : List Char, stripLaux (stripLaux l) = stripLaux l := by
  intro l
  induction l with
  | nil => rfl
  | cons c cs ih =>
    cases hw : c.isWhitespace
    · simp [stripLaux, hw]
    · simp [stripLaux, hw, ih]

theorem stripLaux_length : ∀ l : List Char, (stripLaux l).length ≤ l.length := by
  intro l
  induction l with
  | nil => exact Nat.le_refl 0
  | cons c cs ih =>
    cases hw : c.isWhitespace
    · simp [stripLaux, hw]
    · simp only [stripLaux, hw, if_pos rfl]
      exact Nat.le_trans ih (by simp)

theorem stripLaux_fixed_head (c : Char) (cs : List Char)
    (h : stripLaux (c :: cs) = c :: cs) : c.isWhitespace = false := by
  cases hw : c.isWhitespace
  · rfl
  · exfalso
    rw [stripLaux, if_pos hw] at h
    have := stripLaux_length cs
    rw [h] at this
    simp at this

theorem stripRaux_idem : ∀ l : List Char, stripRaux (stripRaux l) = stripRaux l := by
  intro l
  induction l with
  | nil => rfl
  | cons c cs ih =>
    cases hr : stripRaux cs with
    | nil =>
      cases hw : c.isWhitespace
      · simp [stripRaux, hr, hw]
      · simp [stripRaux, hr, hw]
    | cons x xs =>
      have h1 : stripRaux (c :: cs) = c :: x :: xs := by
        rw [stripRaux, hr]
      rw [h1]
      have h2 : stripRaux (x :: xs) = x :: xs := by
        rw [← hr, ih, hr]
      rw [stripRaux, h2]

theorem stripRaux_head_of_not_ws (c : Char) (cs : List Char) (hw : c.isWhitespace = false) :
    stripRaux (c :: cs) = [] ∨ ∃ t, stripRaux (c :: cs) = c :: t := by
  cases hr : stripRaux cs with
  | nil =>
    right
    refine ⟨[], ?_⟩
    rw [stripRaux, hr, hw]
    simp
  | cons x xs =>
    right
    refine ⟨x :: xs, ?_⟩
    rw [stripRaux, hr]

theorem stripLaux_stripRaux (l : List Char) (hl : stripLaux l = l) :
    stripLaux (stripRaux l) = stripRaux l := by
  cases l with
  | nil => rfl
  | cons c cs =>
    have hw : c.isWhitespace = false := stripLaux_fixed_head c cs hl
    rcases stripRaux_head_of_not_ws c cs hw with h | ⟨t, h⟩
    · rw [h]
      rfl
    · rw [h, stripLaux, hw]
      simp

theorem pyStrip_idem (s : String) : pyStrip (pyStrip s) = pyStrip s := by
  show (⟨stripRaux (stripLaux (String.data ⟨stripRaux (stripLaux s.data)⟩))⟩ : String)
      = (⟨stripRaux (stripLaux s.data)⟩ : String)
  have hdata : (String.data ⟨stripRaux (stripLaux s.data)⟩) = stripRaux (stripLaux s.data) := rfl
  rw [hdata]
  have h1 : stripLaux (stripRaux (stripLaux s.data)) = stripRaux (stripLaux s.data) :=
    stripLaux_stripRaux (stripLaux s.data) (stripLaux_idem s.data)
  rw [h1, stripRaux_idem]

theorem ffill_fillTops :
    ∀ (cols : List (Option String × Option String)) (last : Option String),
    (∀ t, last = some t → isBlankTop t = false ∧ pyStrip t = t) →
    fillableCols last.isSome cols = true →
    ffillAux last (fillTops last cols) = ffillAux last cols := by
  intro cols
  induction cols with
  | nil => intro last _ _; rfl
  | cons p rest ih =>
    intro last hlast hfill
    obtain ⟨a, b⟩ := p
    cases hb : isBlankTop (pyStrip (a.getD "")) with
    | true =>
      have hfill2 : (last.isSome && fillableCols last.isSome rest) = true := by
        have := hfill
        rw [fillableCols] at this
        simpa [hb] using this
      rw [Bool.and_eq_true] at hfill2
      have hsome : last.isSome = true := hfill2.1
      have hrest : fillableCols last.isSome rest = true := hfill2.2
      obtain ⟨t, ht⟩ := Option.isSome_iff_exists.mp hsome
      obtain ⟨htb, hts⟩ := hlast t ht
      subst ht
      have hfl : fillTops (some t) ((a, b) :: rest)
          = (some t, b) :: fillTops (some t) rest := by
        rw [fillTops]
        simp [hb]
      rw [hfl]
      have hlhs : ffillAux (some t) ((some t, b) :: fillTops (some t) rest)
          = (t, pyStrip (b.getD "")) :: ffillAux (some t) (fillTops (some t) rest) := by
        rw [ffillAux]
        simp only [Option.getD_some, hts, htb, Bool.false_eq_true, if_false]
      have hrhs : ffillAux (some t) ((a, b) :: rest)
          = (t, pyStrip (b.getD "")) :: ffillAux (some t) rest := by
        rw [ffillAux]
        simp only [hb, if_true, Option.getD_some]
      rw [hlhs, hrhs, ih (some t) hlast hrest]
    | false =>
      have hfill2 : fillableCols true rest = true := by
        have := hfill
        rw [fillableCols] at this
        simpa [hb] using this
      have hfl : fillTops last ((a, b) :: rest)
          = (a, b) :: fillTops (some (pyStrip (a.getD ""))) rest := by
        rw [fillTops]
        simp [hb]
      rw [hfl]
      have hlhs : ffillAux last ((a, b) :: fillTops (some (pyStrip (a.getD ""))) rest)
          = (pyStrip (a.getD ""), pyStrip (b.getD "")) ::
            ffillAux (some (pyStrip (a.getD ""))) (fillTops (some (pyStrip (a.getD ""))) rest) := by
        rw [ffillAux]
        simp only [hb, Bool.false_eq_true, if_false]
      have hrhs : ffillAux last ((a, b) :: rest)
          = (pyStrip (a.getD ""), pyStrip (b.getD "")) ::
            ffillAux (some (pyStrip (a.getD ""))) rest := by
        rw [ffillAux]
        simp only [hb, Bool.false_eq_true, if_false]
      rw [hlhs, hrhs]
      have hnext : ∀ t, some (pyStrip (a.getD "")) = some t →
          isBlankTop t = false ∧ pyStrip t = t := by
        intro t ht
        injection ht with ht
        subst ht
        exact ⟨hb, pyStrip_idem _⟩
      rw [ih (some (pyStrip (a.getD ""))) hnext (by simpa using hfill2)]

/-- C7: for a two-level header whose blank/placeholder top-band labels
are all forward-fillable from a non-blank label to their left, the Header
Classifier produces exactly the same date→status map as for the
equivalent header in which those blanks are textually replaced by the
filled labels: merged-cell reconstruction round-trips. -/
theorem c7_forward_fill_round_trips (cols : List (Option String × Option String))
    (hfill : fillableCols false cols = true) :
    classifyHeaders (fillTops none cols) = classifyHeaders cols := by
  unfold classifyHeaders ffillPairs
  rw [ffill_fillTops cols none (fun t ht => nomatch ht) (by simpa using hfill)]

/-- C7 witness: a three-column date band whose second and third top
labels are blank / a pandas "Unnamed" placeholder. -/
theorem c7_forward_fill_round_trips_witness :
    classifyHeaders (fillTops none
        [(some "01/01/2024", some "Présent"), (some "", some "Absent"),
         (some "Unnamed: 2", some "CONG")])
      = classifyHeaders
        [(some "01/01/2024", some "Présent"), (some "", some "Absent"),
         (some "Unnamed: 2", some "CONG")] :=
  c7_forward_fill_round_trips
    [(some "01/01/2024", some "Présent"), (some "", some "Absent"),
     (some "Unnamed: 2", some "CONG")] (by decide)

/-! ### C6 — the upload is one atomic unit of work -/

theorem dateStepsF_ok (failOn : Nat → Bool) (row : Nat → Cell) (m : String) :
    ∀ (dc : List (String × List (String × Nat))) (atts : List AttRec) (n w : Nat)
      (atts2 : List AttRec) (n2 w2 : Nat),
    dateStepsF failOn row m atts n w dc = Except.ok (atts2, n2, w2) →
    dateSteps row m atts n dc = (atts2, n2) := by
  intro dc
  induction dc with
  | nil =>
    intro atts n w atts2 n2 w2 h
    simp only [dateStepsF, Except.ok.injEq, Prod.mk.injEq] at h
    obtain ⟨h1, h2, _⟩ := h
    subst h1; subst h2
    rfl
  | cons entry rest ih =>
    intro atts n w atts2 n2 w2 h
    obtain ⟨ds, sm⟩ := entry
    rw [dateStepsF] at h
    rw [dateSteps]
    simp only [dateStep]
    cases hp : parseISO ds with
    | none =>
      rw [hp] at h
      dsimp only at h ⊢
      exact ih atts n w atts2 n2 w2 h
    | some dObj =>
      rw [hp] at h
      dsimp only at h ⊢
      by_cases hz : flagsSum (computeFlags row sm) = 0
      · rw [if_pos hz] at h
        rw [if_pos hz]
        exact ih atts n w atts2 n2 w2 h
      · rw [if_neg hz] at h
        rw [if_neg hz]
        cases hf : failOn w
        · rw [wTry, hf] at h
          simp only [Bool.false_eq_true, if_false] at h
          exact ih _ _ _ atts2 n2 w2 h
        · rw [wTry, hf] at h
          simp only [if_true] at h
          exact absurd h (fun hx => nomatch hx)

theorem processRowF_ok (failOn : Nat → Bool) (fm : List (String × Nat))
    (dc : List (String × List (String × Nat)))
    (store : Store) (n w : Nat) (row : Nat → Cell) (store2 : Store) (n2 w2 : Nat)
    (h : processRowF failOn fm dc store n w row = Except.ok (store2, n2, w2)) :
    processRow fm dc (store, n) row = (store2, n2) := by
  simp only [processRowF] at h
  simp only [processRow]
  cases hmc : (match aLookup "matricule" fm with
    | some i => row i
    | none => row 0) with
  | none =>
    rw [hmc] at h
    dsimp only at h
    simp only [Except.ok.injEq, Prod.mk.injEq] at h
    obtain ⟨h1, h2, _⟩ := h
    rw [h1, h2]
  | num v =>
    rw [hmc] at h
    dsimp only at h ⊢
    by_cases hm : pyStrip (cellToStr (Cell.num v)) = ""
    · rw [if_pos hm] at h
      rw [if_pos hm]
      simp only [Except.ok.injEq, Prod.mk.injEq] at h
      obtain ⟨h1, h2, _⟩ := h
      rw [h1, h2]
    · rw [if_neg hm] at h
      rw [if_neg hm]
      cases hfind : findEmp store.employees (pyStrip (cellToStr (Cell.num v))) with
      | some e =>
        rw [hfind] at h
        dsimp only at h
        cases hds : dateStepsF failOn row (pyStrip (cellToStr (Cell.num v)))
            store.atts n w dc with
        | error er =>
          rw [hds] at h
          exact absurd h (fun hx => nomatch hx)
        | ok triple =>
          obtain ⟨atts1, n1, w1⟩ := triple
          rw [hds] at h
          simp only [Except.ok.injEq, Prod.mk.injEq] at h
          obtain ⟨h1, h2, _⟩ := h
          rw [dateStepsF_ok failOn row _ dc store.atts n w atts1 n1 w1 hds]
          rw [← h1, ← h2]
      | none =>
        rw [hfind] at h
        dsimp only at h
        cases hf : failOn w
        · rw [wTry, hf] at h
          simp only [Bool.false_eq_true, if_false] at h
          cases hds : dateStepsF failOn row (pyStrip (cellToStr (Cell.num v)))
              store.atts n (w + 1) dc with
          | error er =>
            rw [hds] at h
            exact absurd h (fun hx => nomatch hx)
          | ok triple =>
            obtain ⟨atts1, n1, w1⟩ := triple
            rw [hds] at h
            simp only [Except.ok.injEq, Prod.mk.injEq] at h
            obtain ⟨h1, h2, _⟩ := h
            rw [dateStepsF_ok failOn row _ dc store.atts n (w + 1) atts1 n1 w1 hds]
            rw [← h1, ← h2]
        · rw [wTry, hf] at h
          simp only [if_true] at h
          exact absurd h (fun hx => nomatch hx)
  | str s =>
    rw [hmc] at h
    dsimp only at h ⊢
    by_cases hm : pyStrip (cellToStr (Cell.str s)) = ""
    · rw [if_pos hm] at h
      rw [if_pos hm]
      simp only [Except.ok.injEq, Prod.mk.injEq] at h
      obtain ⟨h1, h2, _⟩ := h
      rw [h1, h2]
    · rw [if_neg hm] at h
      rw [if_neg hm]
      cases hfind : findEmp store.employees (pyStrip (cellToStr (Cell.str s))) with
      | some e =>
        rw [hfind] at h
        dsimp only at h
        cases hds : dateStepsF failOn row (pyStrip (cellToStr (Cell.str s)))
            store.atts n w dc with
        | error er =>
          rw [hds] at h
          exact absurd h (fun hx => nomatch hx)
        | ok triple =>
          obtain ⟨atts1, n1, w1⟩ := triple
          rw [hds] at h
          simp only [Except.ok.injEq, Prod.mk.injEq] at h
          obtain ⟨h1, h2, _⟩ := h
          rw [dateStepsF_ok failOn row _ dc store.atts n w atts1 n1 w1 hds]
          rw [← h1, ← h2]
      | none =>
        rw [hfind] at h
        dsimp only at h
        cases hf : failOn w
        · rw [wTry, hf] at h
          simp only [Bool.false_eq_true, if_false] at h
          cases hds : dateStepsF failOn row (pyStrip (cellToStr (Cell.str s)))
              store.atts n (w + 1) dc with
          | error er =>
            rw [hds] at h
            exact absurd h (fun hx => nomatch hx)
          | ok triple =>
            obtain ⟨atts1, n1, w1⟩ := triple
            rw [hds] at h
            simp only [Except.ok.injEq, Prod.mk.injEq] at h
            obtain ⟨h1, h2, _⟩ := h
            rw [dateStepsF_ok failOn row _ dc store.atts n (w + 1) atts1 n1 w1 hds]
            rw [← h1, ← h2]
        · rw [wTry, hf] at h
          simp only [if_true] at h
          exact absurd h (fun hx => nomatch hx)

theorem processRowsF_ok (failOn : Nat → Bool) (fm : List (String × Nat))
    (dc : List (String × List (String × Nat))) :
    ∀ (rows : List (Nat → Cell)) (store : Store) (n w : Nat)
      (store2 : Store) (n2 w2 : Nat),
    processRowsF failOn fm dc store n w rows = Except.ok (store2, n2, w2) →
    processRows fm dc (store, n) rows = (store2, n2) := by
  intro rows
  induction rows with
  | nil =>
    intro store n w store2 n2 w2 h
    simp only [processRowsF, Except.ok.injEq, Prod.mk.injEq] at h
    obtain ⟨h1, h2, _⟩ := h
    rw [processRows, h1, h2]
  | cons row rest ih =>
    intro store n w store2 n2 w2 h
    rw [processRowsF] at h
    cases hrow : processRowF failOn fm dc store n w row with
    | error er =>
      rw [hrow] at h
      exact absurd h (fun hx => nomatch hx)
    | ok triple =>
      obtain ⟨storeA, nA, wA⟩ := triple
      rw [hrow] at h
      dsimp only at h
      rw [processRows]
      rw [processRowF_ok failOn fm dc store n w row storeA nA wA hrow]
      exact ih storeA nA wA store2 n2 w2 h

/-- C6: the upload is one logical unit of work.  If any record-store
write fails, the committed store is exactly the initial one (full
rollback, no partial state) and one aggregate error, prefixed by the
upload's aggregate message, is surfaced; if no write fails, the commit
publishes exactly the state the pure row loop computes, with its
processed-facts count. -/
theorem c6_upload_atomicity (cols : List (Option String × Option String))
    (rows : List (Nat → Cell)) (failOn : Nat → Bool) (init : Store) :
    (∀ e, (process_uploadF cols rows failOn init).2 = Except.error e →
      (process_uploadF cols rows failOn init).1 = init ∧
      ∃ msg, e = "Erreur lors du traitement des données: " ++ msg) ∧
    (∀ n, (process_uploadF cols rows failOn init).2 = Except.ok n →
      (process_uploadF cols rows failOn init).1 = (process_upload_pure cols rows init).1 ∧
      n = (process_upload_pure cols rows init).2) := by
  unfold process_uploadF process_upload_pure
  dsimp only
  cases hrun : processRowsF failOn (buildFixedMap (ffillPairs cols))
      (buildDateColumns (ffillPairs cols)) init 0 0 rows with
  | error e =>
    dsimp only
    constructor
    · intro e2 he2
      injection he2 with he2
      exact ⟨rfl, e, he2.symm⟩
    · intro n hn
      exact absurd hn (fun hx => nomatch hx)
  | ok triple =>
    obtain ⟨pending, n1, w⟩ := triple
    dsimp only
    have hpure : processRows (buildFixedMap (ffillPairs cols))
        (buildDateColumns (ffillPairs cols)) (init, 0) rows = (pending, n1) :=
      processRowsF_ok failOn _ _ rows init 0 0 pending n1 w hrun
    cases hf : failOn w
    · rw [wTry, hf]
      simp only [Bool.false_eq_true, if_false]
      constructor
      · intro e2 he2
        exact absurd he2 (fun hx => nomatch hx)
      · intro n hn
        injection hn with hn
        rw [hpure, ← hn]
        exact ⟨rfl, rfl⟩
    · rw [wTry, hf]
      simp only [if_true]
      constructor
      · intro e2 he2
        injection he2 with he2
        exact ⟨trivial, "record-store write failed", he2.symm⟩
      · intro n hn
        exact absurd hn (fun hx => nomatch hx)

/-- C6 witness: with a record store whose every write fails, an import
that must create an employee aborts with the single aggregate error and
the committed store is exactly the initial one. -/
theorem c6_upload_atomicity_witness :
    (process_uploadF [(some "matricule", none), (some "01/01/2024", some "Présent")]
        [rowOf [Cell.str "E1", Cell.str "x"]] (fun _ => true) ⟨[], []⟩).1 = ⟨[], []⟩ ∧
    (∃ msg, "Erreur lors du traitement des données: record-store write failed"
        = "Erreur lors du traitement des données: " ++ msg) := by
  have h := (c6_upload_atomicity [(some "matricule", none), (some "01/01/2024", some "Présent")]
    [rowOf [Cell.str "E1", Cell.str "x"]] (fun _ => true) ⟨[], []⟩).1
    "Erreur lors du traitement des données: record-store write failed" (by rfl)
  exact ⟨h.1, h.2⟩

/-! ### C9 — date order, the day enumeration, and its arithmetic -/

theorem dateLe_refl (d : Date) : dateLe d d := by
  unfold dateLe
  omega

theorem dateLe_trans (a b c : Date) (h1 : dateLe a b) (h2 : dateLe b c) : dateLe a c := by
  unfold dateLe at h1 h2 ⊢
  omega

theorem dateLe_of_lt (a b : Date) (h : dateLt a b) : dateLe a b := by
  unfold dateLt at h
  unfold dateLe
  omega

theorem dateLt_of_le_ne (a b : Date) (h : dateLe a b) (hne : a ≠ b) : dateLt a b := by
  unfold dateLe at h
  unfold dateLt
  have hne2 : ¬(a.year = b.year ∧ a.month = b.month ∧ a.day = b.day) := by
    intro ⟨h1, h2, h3⟩
    apply hne
    cases a; cases b
    simp_all
  omega

theorem dateLt_irrefl (a b : Date) (h : dateLt a b) : a ≠ b := by
  intro he
  subst he
  unfold dateLt at h
  omega

theorem dateLe_total (a b : Date) : dateLe a b ∨ dateLt b a := by
  unfold dateLe dateLt
  omega

theorem dim_pos (y m : Nat) : 1 ≤ dim y m := by
  unfold dim
  split_ifs <;> omega

theorem validDate_nextDay (d : Date) (hd : validDate d) : validDate (nextDay d) := by
  obtain ⟨hy, hm1, hm2, hd1, hd2⟩ := hd
  have hp2 : 1 ≤ dim d.year (d.month + 1) := dim_pos _ _
  have hp3 : 1 ≤ dim (d.year + 1) 1 := dim_pos _ _
  unfold nextDay
  by_cases h1 : d.day < dim d.year d.month
  · rw [if_pos h1]
    unfold validDate
    dsimp only
    refine ⟨hy, hm1, hm2, by omega, by omega⟩
  · rw [if_neg h1]
    by_cases h2 : d.month < 12
    · rw [if_pos h2]
      unfold validDate
      dsimp only
      refine ⟨hy, by omega, by omega, by omega, hp2⟩
    · rw [if_neg h2]
      unfold validDate
      dsimp only
      refine ⟨by omega, by omega, by omega, by omega, hp3⟩

theorem dateLt_nextDay (d : Date) : dateLt d (nextDay d) := by
  unfold nextDay
  by_cases h1 : d.day < dim d.year d.month
  · rw [if_pos h1]
    unfold dateLt
    dsimp only
    omega
  · rw [if_neg h1]
    by_cases h2 : d.month < 12
    · rw [if_pos h2]
      unfold dateLt
      dsimp only
      omega
    · rw [if_neg h2]
      unfold dateLt
      dsimp only
      omega

set_option maxHeartbeats 1000000 in
theorem dby_succ (y : Nat) (hy : 1 ≤ y) :
    dby (y + 1) = dby y + 365 + (if leapB y then 1 else 0) := by
  have hleap : leapB y = true ↔ (y % 4 = 0 ∧ (¬y % 100 = 0 ∨ y % 400 = 0)) := by
    simp [leapB]
  unfold dby
  by_cases h4 : y % 4 = 0
  · by_cases h100 : y % 100 = 0
    · by_cases h400 : y % 400 = 0
      · have hl : leapB y = true := hleap.mpr ⟨h4, Or.inr h400⟩
        rw [if_pos hl]
        omega
      · have hl : ¬leapB y = true := fun hx => by
          rcases (hleap.mp hx).2 with hc | hc
          exacts [hc h100, h400 hc]
        rw [if_neg hl]
        omega
    · have hl : leapB y = true := hleap.mpr ⟨h4, Or.inl h100⟩
      rw [if_pos hl]
      omega
  · have hl : ¬leapB y = true := fun hx => h4 (hleap.mp hx).1
    rw [if_neg hl]
    omega

theorem dby_le (y1 y2 : Nat) (h1 : 1 ≤ y1) (h : y1 ≤ y2) : dby y1 ≤ dby y2 := by
  induction y2 with
  | zero => omega
  | succ y ih =>
    by_cases hy : y1 ≤ y
    · have := ih hy
      have hstep := dby_succ y (by omega)
      split_ifs at hstep <;> omega
    · have hz : y1 = y + 1 := by omega
      rw [hz]

theorem dbm_dim (y m : Nat) (h1 : 1 ≤ m) (h2 : m ≤ 11) :
    dbm y (m + 1) = dbm y m + dim y m := by
  interval_cases m <;> cases hl : leapB y <;> simp [dbm, dim, dbmTable, hl]

theorem dbm_day_bounds (y m d0 : Nat) (h1 : 1 ≤ m) (h2 : m ≤ 12) (h3 : 1 ≤ d0)
    (h4 : d0 ≤ dim y m) :
    1 ≤ dbm y m + d0 ∧ dbm y m + d0 ≤ 365 + (if leapB y then 1 else 0) := by
  interval_cases m <;> cases hl : leapB y <;> simp [dbm, dim, dbmTable, hl] at h4 ⊢ <;> omega

set_option maxHeartbeats 3000000 in
theorem dbm_mono (y m1 m2 : Nat) (h1 : 1 ≤ m1) (h : m1 < m2) (h2 : m2 ≤ 12) :
    dbm y m1 + dim y m1 ≤ dbm y m2 := by
  have h1b : m1 ≤ 11 := by omega
  interval_cases m1 <;> interval_cases m2 <;> cases hl : leapB y <;>
    simp [dbm, dim, dbmTable, hl]

theorem dateSerial_lt (a b : Date) (ha : validDate a) (hb : validDate b) (h : dateLt a b) :
    dateSerial a < dateSerial b := by
  obtain ⟨hya, hma1, hma2, hda1, hda2⟩ := ha
  obtain ⟨hyb, hmb1, hmb2, hdb1, hdb2⟩ := hb
  unfold dateLt at h
  unfold dateSerial
  rcases h with hy | ⟨hy, hm | ⟨hm, hd⟩⟩
  · -- year strictly less
    have hub := (dbm_day_bounds a.year a.month a.day hma1 hma2 hda1 hda2).2
    have hlb := (dbm_day_bounds b.year b.month b.day hmb1 hmb2 hdb1 hdb2).1
    have hstep := dby_succ a.year hya
    have hmono := dby_le (a.year + 1) b.year (by omega) (by omega)
    split_ifs at hub hstep <;> omega
  · -- same year, month strictly less
    rw [hy]
    have hmono := dbm_mono b.year a.month b.month hma1 hm hmb2
    rw [hy] at hda2
    omega
  · -- same year and month, day strictly less
    rw [hy, hm]
    omega

theorem dateSerial_le_of_le (a b : Date) (ha : validDate a) (hb : validDate b)
    (h : dateLe a b) : dateSerial a ≤ dateSerial b := by
  by_cases he : a = b
  · subst he; exact Nat.le_refl _
  · exact Nat.le_of_lt (dateSerial_lt a b ha hb (dateLt_of_le_ne a b h he))

theorem dateLe_of_serial_le (a b : Date) (ha : validDate a) (hb : validDate b)
    (h : dateSerial a ≤ dateSerial b) : dateLe a b := by
  rcases dateLe_total a b with hle | hlt
  · exact hle
  · exact absurd (dateSerial_lt b a hb ha hlt) (by omega)

theorem dateSerial_nextDay (d : Date) (hd : validDate d) :
    dateSerial (nextDay d) = dateSerial d + 1 := by
  obtain ⟨hy, hm1, hm2, hd1, hd2⟩ := hd
  unfold nextDay
  by_cases h1 : d.day < dim d.year d.month
  · rw [if_pos h1]
    unfold dateSerial
    dsimp only
    omega
  · rw [if_neg h1]
    have hday : d.day = dim d.year d.month := by omega
    by_cases h2 : d.month < 12
    · rw [if_pos h2]
      unfold dateSerial
      have := dbm_dim d.year d.month hm1 (by omega)
      dsimp only
      omega
    · rw [if_neg h2]
      have hm12 : d.month = 12 := by omega
      have hstep := dby_succ d.year hy
      have hdbm1 : dbm (d.year + 1) 1 = 0 := by
        cases hl : leapB (d.year + 1) <;> simp [dbm, dbmTable, hl]
      have hdbm12 : dbm d.year 12 = 334 + (if leapB d.year then 1 else 0) := by
        cases hl : leapB d.year <;> simp [dbm, dbmTable, hl]
      have hdim12 : dim d.year 12 = 31 := by simp [dim]
      unfold dateSerial
      dsimp only
      rw [hm12] at hday ⊢
      rw [hdim12] at hday
      rw [hdbm1, hdbm12, hstep]
      split_ifs <;> omega

theorem mem_daysRangeAux (e : Date) (he : validDate e) :
    ∀ (n : Nat) (cur : Date), validDate cur →
    dateSerial e + 1 - dateSerial cur ≤ n →
    ∀ d, d ∈ daysRangeAux n cur e ↔ (validDate d ∧ dateLe cur d ∧ dateLe d e) := by
  intro n
  induction n with
  | zero =>
    intro cur hcur hfuel d
    simp only [daysRangeAux, List.not_mem_nil, false_iff]
    rintro ⟨hv, h1, h2⟩
    have hs1 := dateSerial_le_of_le cur d hcur hv h1
    have hs2 := dateSerial_le_of_le d e hv he h2
    omega
  | succ n ih =>
    intro cur hcur hfuel d
    rw [daysRangeAux]
    by_cases hle : dateLe cur e
    · rw [if_pos hle]
      rw [List.mem_cons]
      have hnv := validDate_nextDay cur hcur
      have hser := dateSerial_nextDay cur hcur
      have hfuel2 : dateSerial e + 1 - dateSerial (nextDay cur) ≤ n := by omega
      rw [ih (nextDay cur) hnv hfuel2 d]
      constructor
      · rintro (h | ⟨hv, h1, h2⟩)
        · subst h
          exact ⟨hcur, dateLe_refl d, hle⟩
        · exact ⟨hv, dateLe_trans cur (nextDay cur) d
            (dateLe_of_lt cur (nextDay cur) (dateLt_nextDay cur)) h1, h2⟩
      · rintro ⟨hv, h1, h2⟩
        by_cases heq : d = cur
        · exact Or.inl heq
        · right
          refine ⟨hv, ?_, h2⟩
          have hlt : dateLt cur d :=
            dateLt_of_le_ne cur d h1 (fun hx => heq hx.symm)
          have hs := dateSerial_lt cur d hcur hv hlt
          exact dateLe_of_serial_le (nextDay cur) d hnv hv (by omega)
    · rw [if_neg hle]
      simp only [List.not_mem_nil, false_iff]
      rintro ⟨hv, h1, h2⟩
      exact hle (dateLe_trans cur d e h1 h2)

theorem mem_daysRange (s e : Date) (hs : validDate s) (he : validDate e) :
    ∀ d, d ∈ daysRange s e ↔ (validDate d ∧ dateLe s d ∧ dateLe d e) := by
  intro d
  exact mem_daysRangeAux e he _ s hs (Nat.le_refl _) d

theorem daysRangeAux_chain (e : Date) :
    ∀ (n : Nat) (cur : Date), List.Chain' dateLt (daysRangeAux n cur e) := by
  intro n
  induction n with
  | zero => intro cur; exact List.chain'_nil
  | succ n ih =>
    intro cur
    rw [daysRangeAux]
    by_cases hle : dateLe cur e
    · rw [if_pos hle]
      rw [List.chain'_cons']
      refine ⟨?_, ih (nextDay cur)⟩
      intro b hb
      cases n with
      | zero => simp [daysRangeAux] at hb
      | succ n2 =>
        rw [daysRangeAux] at hb
        by_cases hle2 : dateLe (nextDay cur) e
        · rw [if_pos hle2] at hb
          simp only [List.head?_cons, Option.mem_def] at hb
          injection hb with hb
          subst hb
          exact dateLt_nextDay cur
        · rw [if_neg hle2] at hb
          simp at hb
    · rw [if_neg hle]
      exact List.chain'_nil

theorem daysRange_chain (s e : Date) : List.Chain' dateLt (daysRange s e) :=
  daysRangeAux_chain e _ s

theorem daysRange_nodup (s e : Date) : (daysRange s e).Nodup := by
  haveI : IsTrans Date dateLt := ⟨by
    intro a b c h1 h2
    unfold dateLt at h1 h2 ⊢
    omega⟩
  have hp : (daysRange s e).Pairwise dateLt := by
    rw [← List.chain'_iff_pairwise]
    exact daysRange_chain s e
  exact hp.imp (fun h => dateLt_irrefl _ _ h)

/-! ### C9 — export table structure -/

theorem aInsert_not_mem {κ α : Type} [DecidableEq κ] (k : κ) (v : α) :
    ∀ l : List (κ × α), aLookup k l = none → aInsert k v l = l ++ [(k, v)] := by
  intro l
  induction l with
  | nil => intro _; rfl
  | cons p rest ih =>
    intro h
    obtain ⟨k0, v0⟩ := p
    unfold aLookup at h
    by_cases hk : k0 = k
    · rw [if_pos hk] at h
      exact absurd h (fun hx => nomatch hx)
    · rw [if_neg hk] at h
      unfold aInsert
      rw [if_neg hk, ih h]
      simp

theorem aLookup_append_single {κ α : Type} [DecidableEq κ] (k d0 : κ) (f : α) :
    ∀ amap : List (κ × α), aLookup k (amap ++ [(d0, f)])
      = match aLookup k amap with
        | some v => some v
        | none => if d0 = k then some f else none := by
  intro amap
  induction amap with
  | nil => rfl
  | cons p rest ih =>
    obtain ⟨k0, v0⟩ := p
    show aLookup k ((k0, v0) :: (rest ++ [(d0, f)])) = _
    unfold aLookup
    by_cases hk : k0 = k
    · simp [hk]
    · simp only [if_neg hk]
      exact ih

theorem addFlags_zero (a : Flags) : addFlags a {} = a := rfl

theorem addFlags_swap (a b c : Flags) :
    addFlags (addFlags a b) c = addFlags (addFlags a c) b := by
  unfold addFlags
  simp only [Flags.mk.injEq]
  omega

theorem foldl_congr_mem {α β : Type} (l : List α) (f1 f2 : β → α → β) :
    ∀ i : β, (∀ x ∈ l, ∀ acc, f1 acc x = f2 acc x) → l.foldl f1 i = l.foldl f2 i := by
  induction l with
  | nil => intro i _; rfl
  | cons x rest ih =>
    intro i h
    show rest.foldl f1 (f1 i x) = rest.foldl f2 (f2 i x)
    rw [h x (List.mem_cons_self x rest) i]
    exact ih _ (fun y hy acc => h y (List.mem_cons_of_mem x hy) acc)

theorem foldl_addFlags_init (g : Date → Flags) :
    ∀ (days : List Date) (init extra : Flags),
    days.foldl (fun acc d => addFlags acc (g d)) (addFlags init extra)
      = addFlags (days.foldl (fun acc d => addFlags acc (g d)) init) extra := by
  intro days
  induction days with
  | nil => intro init extra; rfl
  | cons d rest ih =>
    intro init extra
    show rest.foldl _ (addFlags (addFlags init extra) (g d)) = _
    rw [addFlags_swap]
    exact ih (addFlags init (g d)) extra

theorem dayFlags_append_ne (amap : List (Date × Flags)) (d0 : Date) (f : Flags)
    (d2 : Date) (hne : d2 ≠ d0) :
    dayFlags (amap ++ [(d0, f)]) d2 = dayFlags amap d2 := by
  unfold dayFlags
  rw [aLookup_append_single]
  cases h : aLookup d2 amap with
  | some v => rfl
  | none =>
    have : ¬d0 = d2 := fun hx => hne hx.symm
    simp [this]

theorem sumDayFlags_append (amap : List (Date × Flags)) (d0 : Date) (f : Flags) :
    ∀ days : List Date, days.Nodup → d0 ∈ days → aLookup d0 amap = none →
    sumDayFlags (amap ++ [(d0, f)]) days = addFlags (sumDayFlags amap days) f := by
  have key : ∀ (days : List Date) (init : Flags), days.Nodup → d0 ∈ days →
      aLookup d0 amap = none →
      days.foldl (fun acc d => addFlags acc (dayFlags (amap ++ [(d0, f)]) d)) init
      = addFlags (days.foldl (fun acc d => addFlags acc (dayFlags amap d)) init) f := by
    intro days
    induction days with
    | nil => intro init _ hmem _; simp at hmem
    | cons d rest ih =>
      intro init hnd hmem hnone
      by_cases hd : d = d0
      · subst hd
        have h1 : dayFlags (amap ++ [(d, f)]) d = f := by
          unfold dayFlags
          rw [aLookup_append_single, hnone]
          simp
        have h2 : dayFlags amap d = ({} : Flags) := by
          unfold dayFlags
          rw [hnone]
          rfl
        have hdrest : d ∉ rest := (List.nodup_cons.mp hnd).1
        rw [List.foldl_cons, List.foldl_cons]
        rw [h1, h2, addFlags_zero]
        rw [foldl_congr_mem rest _ (fun acc d2 => addFlags acc (dayFlags amap d2)) _
          (fun x hx acc => by
            rw [dayFlags_append_ne amap d f x (fun hx2 => hdrest (hx2 ▸ hx))])]
        exact foldl_addFlags_init (dayFlags amap) rest init f
      · have hmem2 : d0 ∈ rest := by
          cases List.mem_cons.mp hmem with
          | inl hx => exact absurd hx.symm hd
          | inr hx => exact hx
        rw [List.foldl_cons, List.foldl_cons]
        rw [dayFlags_append_ne amap d0 f d hd]
        exact ih (addFlags init (dayFlags amap d)) (List.nodup_cons.mp hnd).2 hmem2 hnone
  intro days hnd hmem hnone
  exact key days {} hnd hmem hnone

theorem aLookup_attMap_none (k : Date) :
    ∀ (L : List AttRec) (acc : List (Date × Flags)), aLookup k acc = none →
    (∀ a ∈ L, a.date ≠ k) →
    aLookup k (L.foldl (fun acc a => aInsert a.date a.flags acc) acc) = none := by
  intro L
  induction L with
  | nil => intro acc h _; exact h
  | cons a rest ih =>
    intro acc h hL
    show aLookup k (rest.foldl _ (aInsert a.date a.flags acc)) = none
    refine ih _ ?_ (fun b hb => hL b (List.mem_cons_of_mem a hb))
    rw [aLookup_aInsert_other k a.date a.flags (hL a (List.mem_cons_self a rest)) acc]
    exact h

theorem sumDayFlags_nil (days : List Date) : sumDayFlags [] days = {} := by
  unfold sumDayFlags
  have key : ∀ (ds : List Date) (init : Flags),
      ds.foldl (fun acc d => addFlags acc (dayFlags [] d)) init = init := by
    intro ds
    induction ds with
    | nil => intro init; rfl
    | cons d rest ih =>
      intro init
      show rest.foldl _ (addFlags init (dayFlags [] d)) = init
      have : dayFlags [] d = ({} : Flags) := rfl
      rw [this, addFlags_zero]
      exact ih init
  exact key days {}

theorem sum_attMap (days : List Date) (hnd : days.Nodup) :
    ∀ L : List AttRec, (∀ a ∈ L, a.date ∈ days) →
    L.Pairwise (fun a b => a.date ≠ b.date) →
    sumDayFlags (L.foldl (fun acc a => aInsert a.date a.flags acc) []) days
      = L.foldl (fun t a => addFlags t a.flags) {} := by
  intro L
  induction L using List.reverseRecOn with
  | nil => intro _ _; exact sumDayFlags_nil days
  | append_singleton L x ih =>
    intro hmem hpw
    rw [List.pairwise_append] at hpw
    obtain ⟨hpwL, _, hcross⟩ := hpw
    have hxnotin : ∀ a ∈ L, a.date ≠ x.date :=
      fun a ha => hcross a ha x (List.mem_cons_self x [])
    have hlookup : aLookup x.date (L.foldl (fun acc a => aInsert a.date a.flags acc) []) = none :=
      aLookup_attMap_none x.date L [] rfl (fun a ha => hxnotin a ha)
    rw [List.foldl_append, List.foldl_append]
    show sumDayFlags (aInsert x.date x.flags
        (L.foldl (fun acc a => aInsert a.date a.flags acc) [])) days = _
    rw [aInsert_not_mem x.date x.flags _ hlookup]
    rw [sumDayFlags_append _ x.date x.flags days hnd
      (hmem x (List.mem_append.mpr (Or.inr (List.mem_cons_self x [])))) hlookup]
    rw [ih (fun a ha => hmem a (List.mem_append.mpr (Or.inl ha))) hpwL]
    rfl

theorem foldl_aInsert_employees :
    ∀ (emps : List EmployeeR) (acc : List (String × EmployeeR)),
    (∀ e2 ∈ emps, aLookup e2.matricule acc = none) →
    (emps.map (fun e2 => e2.matricule)).Nodup →
    emps.foldl (fun acc emp => aInsert emp.matricule emp acc) acc
      = acc ++ emps.map (fun e2 => (e2.matricule, e2)) := by
  intro emps
  induction emps with
  | nil => intro acc _ _; simp
  | cons e2 rest ih =>
    intro acc hnone hnd
    show rest.foldl _ (aInsert e2.matricule e2 acc) = _
    rw [aInsert_not_mem e2.matricule e2 acc (hnone e2 (List.mem_cons_self e2 rest))]
    have hnd2 : (rest.map (fun e3 => e3.matricule)).Nodup := by
      rw [List.map_cons, List.nodup_cons] at hnd
      exact hnd.2
    have hm_notin : e2.matricule ∉ rest.map (fun e3 => e3.matricule) := by
      rw [List.map_cons, List.nodup_cons] at hnd
      exact hnd.1
    rw [ih (acc ++ [(e2.matricule, e2)]) ?_ hnd2]
    · simp
    · intro e3 he3
      rw [aLookup_append_single]
      rw [hnone e3 (List.mem_cons_of_mem e2 he3)]
      have : ¬e2.matricule = e3.matricule := by
        intro hx
        exact hm_notin (hx ▸ List.mem_map_of_mem (fun e4 => e4.matricule) he3)
      simp [this]

theorem flagsList_length (f : Flags) : (flagsList f).length = 6 := rfl

theorem exportRow_length (rowsQ : List AttRec) (days : List Date) (emp : EmployeeR) :
    (exportRow rowsQ days emp).length = 11 + 6 * days.length + 6 := by
  unfold exportRow
  rw [List.length_append, List.length_append]
  have h1 : (profileVals emp).length = 11 := rfl
  have h2 : ∀ (ds : List Date) (amap : List (Date × Flags)),
      (ds.flatMap (fun d => (flagsList (dayFlags amap d)).map
        (fun k => Val.vn (Int.ofNat k)))).length = 6 * ds.length := by
    intro ds amap
    induction ds with
    | nil => rfl
    | cons d rest ih =>
      rw [List.flatMap_cons, List.length_append, ih]
      rw [List.length_map, flagsList_length]
      simp only [List.length_cons]
      ring
  rw [h1, h2, List.length_map, flagsList_length]

/-- C9: shape of the calendar-expanded export for the inclusive range
`[s, e]`: one data row per employee, in employee order, zero-record
employees included; the date list enumerates exactly the calendar days
of the range in strictly chronological (increasing) order; every row is
the eleven profile columns followed by one six-value status group per
calendar day and a trailing six-value totals group; the totals group is
the componentwise sum of the day groups (equivalently, of the
employee's in-range records), and employees without records in range
are fully zero-filled. -/
theorem c9_calendar_export (emps : List EmployeeR) (atts : List AttRec) (s e : Date)
    (hs : validDate s) (he : validDate e)
    (hvalid : ∀ a ∈ atts, validDate a.date)
    (hkeys : atts.Pairwise (fun a b => a.emp ≠ b.emp ∨ a.date ≠ b.date))
    (hnodup : (emps.map (fun emp => emp.matricule)).Nodup) :
    (exportTable emps atts s e).length = emps.length ∧
    List.Chain' dateLt (daysRange s e) ∧
    (∀ d, d ∈ daysRange s e ↔ (validDate d ∧ dateLe s d ∧ dateLe d e)) ∧
    exportTable emps atts s e
      = emps.map (fun emp => exportRow (attsInRange atts s e) (daysRange s e) emp) ∧
    (∀ r ∈ exportTable emps atts s e, r.length = 11 + 6 * (daysRange s e).length + 6) ∧
    (∀ emp ∈ emps,
      totalsFor (attsInRange atts s e) emp.matricule
        = sumDayFlags (attMapFor (attsInRange atts s e) emp.matricule) (daysRange s e)) ∧
    (∀ emp ∈ emps,
      (attsInRange atts s e).filter (fun a => decide (a.emp = emp.matricule)) = [] →
      exportRow (attsInRange atts s e) (daysRange s e) emp
        = profileVals emp
          ++ (daysRange s e).flatMap
              (fun _ => (flagsList {}).map (fun k => Val.vn (Int.ofNat k)))
          ++ (flagsList {}).map (fun k => Val.vn (Int.ofNat k))) := by
  have htbl : exportTable emps atts s e
      = emps.map (fun emp => exportRow (attsInRange atts s e) (daysRange s e) emp) := by
    unfold exportTable
    rw [foldl_aInsert_employees emps [] (fun e2 _ => rfl) hnodup]
    rw [List.nil_append, List.map_map]
    rfl
  refine ⟨?_, daysRange_chain s e, mem_daysRange s e hs he, htbl, ?_, ?_, ?_⟩
  · rw [htbl, List.length_map]
  · intro r hr
    rw [htbl] at hr
    obtain ⟨emp, _, hre⟩ := List.mem_map.mp hr
    rw [← hre]
    exact exportRow_length _ _ emp
  · intro emp _
    have hmemdays : ∀ a ∈ (attsInRange atts s e).filter
        (fun a => decide (a.emp = emp.matricule)), a.date ∈ daysRange s e := by
      intro a ha
      have ha1 : a ∈ attsInRange atts s e := (List.mem_filter.mp ha).1
      have ha2 := (List.mem_filter.mp ha1)
      have hrange : dateLe s a.date ∧ dateLe a.date e := of_decide_eq_true ha2.2
      exact (mem_daysRange s e hs he a.date).mpr
        ⟨hvalid a ha2.1, hrange.1, hrange.2⟩
    have hpw : ((attsInRange atts s e).filter
        (fun a => decide (a.emp = emp.matricule))).Pairwise
        (fun a b => a.date ≠ b.date) := by
      have h1 : (attsInRange atts s e).Pairwise
          (fun a b => a.emp ≠ b.emp ∨ a.date ≠ b.date) := hkeys.filter _
      have h2 : ((attsInRange atts s e).filter
          (fun a => decide (a.emp = emp.matricule))).Pairwise
          (fun a b => a.emp ≠ b.emp ∨ a.date ≠ b.date) := h1.filter _
      refine h2.imp_of_mem ?_
      intro a b ha hb hab
      have hae : a.emp = emp.matricule := of_decide_eq_true (List.mem_filter.mp ha).2
      have hbe : b.emp = emp.matricule := of_decide_eq_true (List.mem_filter.mp hb).2
      cases hab with
      | inl h => exact absurd (hae.trans hbe.symm) h
      | inr h => exact h
    unfold totalsFor attMapFor
    exact (sum_attMap (daysRange s e) (daysRange_nodup s e) _ hmemdays hpw).symm
  · intro emp _ hfilt
    have hAm : attMapFor (attsInRange atts s e) emp.matricule = [] := by
      unfold attMapFor
      rw [hfilt]
      rfl
    have hTf : totalsFor (attsInRange atts s e) emp.matricule = {} := by
      unfold totalsFor
      rw [hfilt]
      rfl
    unfold exportRow
    rw [hAm, hTf]
    rfl

/-- C9 witness: range 2024-01-01..03, two employees, one in-range record
for E1 on 2024-01-02: the table has one row per employee and the day
list is exactly the three calendar days. -/
theorem c9_calendar_export_witness :
    (exportTable [{ matricule := "E1" }, { matricule := "E2" }]
        [⟨"E1", ⟨2024, 1, 2⟩, { present := 1 }⟩] ⟨2024, 1, 1⟩ ⟨2024, 1, 3⟩).length = 2 ∧
    (∀ d, d ∈ daysRange ⟨2024, 1, 1⟩ ⟨2024, 1, 3⟩
      ↔ (validDate d ∧ dateLe ⟨2024, 1, 1⟩ d ∧ dateLe d ⟨2024, 1, 3⟩)) := by
  have h := c9_calendar_export [{ matricule := "E1" }, { matricule := "E2" }]
    [⟨"E1", ⟨2024, 1, 2⟩, { present := 1 }⟩] ⟨2024, 1, 1⟩ ⟨2024, 1, 3⟩
    (by decide) (by decide) (by decide) (by decide) (by decide)
  exact ⟨h.1.trans (by decide), h.2.2.1⟩

end IVL
